import Mathlib

/-!
Verification of the publishing/storage subsystem of the binance-poller
repository, shallowly embedded in Lean 4.

Conventions of the embedding:
* Python text (str) is modelled as `List Char` (`Str` below).
* Python structured documents (the decoded JSON payloads flowing through
  `publish`) are modelled by the inductive type `Json`; Python `None` is
  conflated with JSON null (`json.dumps(None) = "null"`), numbers are
  modelled as integers (floating point is out of scope), and a Python
  `dict` is an ordered association list whose keys are unique by
  construction in Python.
* Stateful code is modelled by explicit state passing; a Python method
  that can raise returns its (possibly partially mutated) state together
  with an `Option PyErr` recording the exception propagated to the caller.
* File I/O is modelled by an explicit per-topic disk content plus a
  per-handle write buffer; physical I/O failures are out of scope (the
  model's writes succeed), matching the code which performs no retries.
-/

set_option autoImplicit false

abbrev Str := List Char

/-- Dynamic-typing / lookup errors a Python expression can raise. -/
inductive PyErr where
  | keyError
  | typeError
  | attributeError
  deriving DecidableEq, Repr

/-- Structured documents: the decoded JSON payloads the program publishes.
An `obj` is a Python `dict`: an insertion-ordered association list.  Numbers
are integers (the payloads this program handles carry integers and
decimal-as-string fields; floats are outside this model). -/
inductive Json where
  | null
  | bool (b : Bool)
  | num (n : Int)
  | str (s : Str)
  | arr (elems : List Json)
  | obj (members : List (Str × Json))

/-- A Python dict with string keys (type annotation `dict` on `message`). -/
abbrev Dict := List (Str × Json)

mutual

/-- Structural equality test on documents (Python `==` on decoded JSON). -/
def Json.beq : Json → Json → Bool
  | .null, .null => true
  | .bool a, .bool b => a = b
  | .num a, .num b => a = b
  | .str a, .str b => a = b
  | .arr a, .arr b => Json.beqList a b
  | .obj a, .obj b => Json.beqMembers a b
  | _, _ => false

def Json.beqList : List Json → List Json → Bool
  | [], [] => true
  | a :: as, b :: bs => Json.beq a b && Json.beqList as bs
  | _, _ => false

def Json.beqMembers : List (Str × Json) → List (Str × Json) → Bool
  | [], [] => true
  | (k, a) :: as, (k', b) :: bs => k = k' && (Json.beq a b && Json.beqMembers as bs)
  | _, _ => false

end

mutual

theorem Json.beq_iff : ∀ a b : Json, Json.beq a b = true ↔ a = b
  | .null, .null => by simp [Json.beq]
  | .bool _, .bool _ => by simp [Json.beq]
  | .num _, .num _ => by simp [Json.beq]
  | .str _, .str _ => by simp [Json.beq]
  | .arr a, .arr b => by
      simp only [Json.beq, Json.arr.injEq]
      exact Json.beqList_iff a b
  | .obj a, .obj b => by
      simp only [Json.beq, Json.obj.injEq]
      exact Json.beqMembers_iff a b
  | .null, .bool _ | .null, .num _ | .null, .str _ | .null, .arr _ | .null, .obj _
  | .bool _, .null | .bool _, .num _ | .bool _, .str _ | .bool _, .arr _ | .bool _, .obj _
  | .num _, .null | .num _, .bool _ | .num _, .str _ | .num _, .arr _ | .num _, .obj _
  | .str _, .null | .str _, .bool _ | .str _, .num _ | .str _, .arr _ | .str _, .obj _
  | .arr _, .null | .arr _, .bool _ | .arr _, .num _ | .arr _, .str _ | .arr _, .obj _
  | .obj _, .null | .obj _, .bool _ | .obj _, .num _ | .obj _, .str _ | .obj _, .arr _ => by
      simp [Json.beq]

theorem Json.beqList_iff : ∀ a b : List Json, Json.beqList a b = true ↔ a = b
  | [], [] => by simp [Json.beqList]
  | a :: as, b :: bs => by
      simp only [Json.beqList, Bool.and_eq_true, List.cons.injEq]
      exact and_congr (Json.beq_iff a b) (Json.beqList_iff as bs)
  | [], _ :: _ => by simp [Json.beqList]
  | _ :: _, [] => by simp [Json.beqList]

theorem Json.beqMembers_iff : ∀ a b : List (Str × Json), Json.beqMembers a b = true ↔ a = b
  | [], [] => by simp [Json.beqMembers]
  | (k, a) :: as, (k', b) :: bs => by
      simp only [Json.beqMembers, Bool.and_eq_true, List.cons.injEq, Prod.mk.injEq,
        decide_eq_true_eq]
      exact and_congr Iff.rfl (and_congr (Json.beq_iff a b) (Json.beqMembers_iff as bs))
      |>.trans (by tauto)
  | [], _ :: _ => by simp [Json.beqMembers]
  | _ :: _, [] => by simp [Json.beqMembers]

end

instance : DecidableEq Json := fun a b => decidable_of_iff _ (Json.beq_iff a b)

/-! ### Python `dict` as an insertion-ordered association list -/

section DictOps

variable {κ : Type} [DecidableEq κ] {α : Type}

/-- Python `d.get(k)` / `k in d` lookup: first (hence, for a real dict,
only) binding of `k`. -/
def dictGet (d : List (κ × α)) (k : κ) : Option α :=
  match d with
  | [] => none
  | (k', v) :: rest => if k' = k then some v else dictGet rest k

/-- Python `d[k] = v`: overwrite in place if the key exists, otherwise
append at the end (dicts preserve insertion order). -/
def dictSet (d : List (κ × α)) (k : κ) (v : α) : List (κ × α) :=
  match d with
  | [] => [(k, v)]
  | (k', v') :: rest => if k' = k then (k, v) :: rest else (k', v') :: dictSet rest k v

/-- Python `del d[k]`: removes the binding of `k` (the callers guard with
`k in d`, so we just delete the first binding if any). -/
def dictErase (d : List (κ × α)) (k : κ) : List (κ × α) :=
  match d with
  | [] => []
  | (k', v') :: rest => if k' = k then rest else (k', v') :: dictErase rest k

/-- Number of bindings of key `k` in `d` (a real dict has at most one). -/
def countKey (d : List (κ × α)) (k : κ) : Nat :=
  (d.filter fun p => p.1 = k).length

@[simp] theorem dictGet_nil (k : κ) : dictGet ([] : List (κ × α)) k = none := rfl

theorem dictGet_dictSet_self (d : List (κ × α)) (k : κ) (v : α) :
    dictGet (dictSet d k v) k = some v := by
  induction d with
  | nil => simp [dictGet, dictSet]
  | cons p rest ih =>
    obtain ⟨k', v'⟩ := p
    by_cases h : k' = k <;> simp [dictGet, dictSet, h, ih]

theorem dictGet_dictSet_ne (d : List (κ × α)) (k k' : κ) (v : α) (h : k' ≠ k) :
    dictGet (dictSet d k v) k' = dictGet d k' := by
  have h' : k ≠ k' := fun hh => h hh.symm
  induction d with
  | nil => simp [dictGet, dictSet, h']
  | cons p rest ih =>
    obtain ⟨k'', v''⟩ := p
    by_cases h2 : k'' = k
    · subst h2
      simp [dictGet, dictSet, h']
    · by_cases h3 : k'' = k' <;> simp [dictGet, dictSet, h2, h3, h, ih]

theorem dictGet_dictErase_ne (d : List (κ × α)) (k k' : κ) (h : k' ≠ k) :
    dictGet (dictErase d k) k' = dictGet d k' := by
  have h' : k ≠ k' := fun hh => h hh.symm
  induction d with
  | nil => simp [dictErase]
  | cons p rest ih =>
    obtain ⟨k'', v''⟩ := p
    by_cases h2 : k'' = k
    · subst h2
      simp [dictGet, dictErase, h']
    · by_cases h3 : k'' = k' <;> simp [dictGet, dictErase, h2, h3, h, ih]

theorem dictErase_of_not_mem (d : List (κ × α)) (k : κ)
    (h : dictGet d k = none) : dictErase d k = d := by
  induction d with
  | nil => rfl
  | cons p rest ih =>
    obtain ⟨k', v'⟩ := p
    by_cases h2 : k' = k
    · simp [dictGet, h2] at h
    · simp only [dictGet, h2, if_false] at h
      simp [dictErase, h2, ih h]

theorem dictSet_cons_eq {k' k : κ} {v' v : α} {rest : List (κ × α)} (h : k' = k) :
    dictSet ((k', v') :: rest) k v = (k, v) :: rest := by
  simp [dictSet, h]

theorem dictSet_cons_ne {k' k : κ} {v' v : α} {rest : List (κ × α)} (h : ¬ k' = k) :
    dictSet ((k', v') :: rest) k v = (k', v') :: dictSet rest k v := by
  simp [dictSet, h]

theorem countKey_cons_self {p : κ × α} {rest : List (κ × α)} {k : κ} (h : p.1 = k) :
    countKey (p :: rest) k = countKey rest k + 1 := by
  simp [countKey, List.filter_cons, h]

theorem countKey_cons_ne {p : κ × α} {rest : List (κ × α)} {k : κ} (h : ¬ p.1 = k) :
    countKey (p :: rest) k = countKey rest k := by
  simp [countKey, List.filter_cons, h]

theorem mem_dictSet (d : List (κ × α)) (k : κ) (v : α) (q : κ × α)
    (hq : q ∈ dictSet d k v) : q ∈ d ∨ q = (k, v) := by
  induction d with
  | nil =>
    simp only [dictSet, List.mem_singleton] at hq
    right; exact hq
  | cons r rest ih =>
    obtain ⟨rk, rv⟩ := r
    by_cases h3 : rk = k
    · rw [dictSet_cons_eq h3] at hq
      rcases List.mem_cons.1 hq with hq1 | hq1
      · right; exact hq1
      · left; exact List.mem_cons_of_mem _ hq1
    · rw [dictSet_cons_ne h3] at hq
      rcases List.mem_cons.1 hq with hq1 | hq1
      · left; exact hq1 ▸ List.mem_cons_self _ _
      · rcases ih hq1 with hh | hh
        · left; exact List.mem_cons_of_mem _ hh
        · right; exact hh

theorem countKey_eq_zero_of_not_mem (d : List (κ × α)) (k : κ)
    (h : ∀ p ∈ d, p.1 ≠ k) : countKey d k = 0 := by
  induction d with
  | nil => rfl
  | cons p rest ih =>
    rw [countKey_cons_ne (h p (List.mem_cons_self p rest))]
    exact ih fun q hq => h q (List.mem_cons_of_mem p hq)

theorem countKey_dictSet_self (d : List (κ × α)) (k : κ) (v : α)
    (hnd : (d.map Prod.fst).Nodup) : countKey (dictSet d k v) k = 1 := by
  induction d with
  | nil => simp [dictSet, countKey, List.filter]
  | cons p rest ih =>
    obtain ⟨k', v'⟩ := p
    simp only [List.map_cons, List.nodup_cons] at hnd
    by_cases h2 : k' = k
    · rw [dictSet_cons_eq h2, countKey_cons_self rfl]
      have hz : countKey rest k = 0 := by
        apply countKey_eq_zero_of_not_mem
        intro q hq hqe
        exact hnd.1 (h2 ▸ hqe ▸ List.mem_map_of_mem Prod.fst hq)
      show countKey rest k + 1 = 1
      omega
    · rw [dictSet_cons_ne h2, countKey_cons_ne h2]
      exact ih hnd.2

theorem nodup_keys_dictSet (d : List (κ × α)) (k : κ) (v : α)
    (hnd : (d.map Prod.fst).Nodup) : ((dictSet d k v).map Prod.fst).Nodup := by
  induction d with
  | nil => simp [dictSet]
  | cons p rest ih =>
    obtain ⟨k', v'⟩ := p
    simp only [List.map_cons, List.nodup_cons] at hnd
    by_cases h2 : k' = k
    · rw [dictSet_cons_eq h2]
      simp only [List.map_cons, List.nodup_cons]
      exact ⟨h2 ▸ hnd.1, hnd.2⟩
    · rw [dictSet_cons_ne h2]
      simp only [List.map_cons, List.nodup_cons]
      refine ⟨?_, ih hnd.2⟩
      intro hmem
      rcases List.mem_map.1 hmem with ⟨q, hq, hqe⟩
      rcases mem_dictSet rest k v q hq with hh | hh
      · exact hnd.1 (hqe ▸ List.mem_map_of_mem Prod.fst hh)
      · exact h2 (by rw [hh] at hqe; exact hqe.symm)

end DictOps

theorem dictGet_mem {κ : Type} [DecidableEq κ] {α : Type}
    {d : List (κ × α)} {k : κ} {v : α} (h : dictGet d k = some v) : (k, v) ∈ d := by
  induction d with
  | nil => simp [dictGet] at h
  | cons p rest ih =>
    obtain ⟨k', v'⟩ := p
    by_cases h2 : k' = k
    · subst h2
      have h' : v' = v := by simpa [dictGet] using h
      subst h'
      exact List.mem_cons_self _ _
    · simp only [dictGet, h2, if_false] at h
      exact List.mem_cons_of_mem _ (ih h)

/-! ### `src/storage/core.py`: `InMemoryKeyValueStorage`

The store is a dictionary of tables; each table is itself a dictionary of
key-value pairs.  Table names are Python strings; because
`parse_symbols_info` may produce a `None` record key (a symbol entry with
no `"symbol"` field), record keys are arbitrary documents. -/

structure InMemoryKeyValueStorage where
  storage : List (Str × List (Json × Json))
  deriving DecidableEq

namespace InMemoryKeyValueStorage

/-- `__init__`: empty dictionary of tables. -/
def empty : InMemoryKeyValueStorage := ⟨[]⟩

/-- `write(table, key, value)`: creates the table if absent, then
`self.storage[table][key] = value` (upsert). -/
def write (s : InMemoryKeyValueStorage) (table : Str) (key value : Json) :
    InMemoryKeyValueStorage :=
  ⟨dictSet s.storage table (dictSet ((dictGet s.storage table).getD []) key value)⟩

/-- `read(table, key)`: `self.storage.get(table, {}).get(key, None)`. -/
def read (s : InMemoryKeyValueStorage) (table : Str) (key : Json) : Option Json :=
  dictGet ((dictGet s.storage table).getD []) key

/-- `delete(table, key)`: deletes only when both table and key exist. -/
def delete (s : InMemoryKeyValueStorage) (table : Str) (key : Json) :
    InMemoryKeyValueStorage :=
  match dictGet s.storage table with
  | none => s
  | some tbl =>
      if (dictGet tbl key).isSome then ⟨dictSet s.storage table (dictErase tbl key)⟩
      else s

/-- `clear_table(table)`: `self.storage[table].clear()` when the table is
present (the table remains, emptied in place); no-op otherwise. -/
def clear_table (s : InMemoryKeyValueStorage) (table : Str) : InMemoryKeyValueStorage :=
  match dictGet s.storage table with
  | none => s
  | some _ => ⟨dictSet s.storage table []⟩

/-- `read_all(table)`: `self.storage.get(table, None)` — `none` models the
Python `None` ("absent"), `some []` an existing-but-empty table. -/
def read_all (s : InMemoryKeyValueStorage) (table : Str) : Option (List (Json × Json)) :=
  dictGet s.storage table

/-- Dictionary well-formedness: keys are unique at both levels.  Every
state reachable through the store's operations satisfies this, because
Python dictionaries cannot hold duplicate keys. -/
def WF (s : InMemoryKeyValueStorage) : Prop :=
  (s.storage.map Prod.fst).Nodup ∧ ∀ p ∈ s.storage, (p.2.map Prod.fst).Nodup

instance (s : InMemoryKeyValueStorage) : Decidable s.WF := by
  unfold WF; infer_instance

theorem WF.table_nodup {s : InMemoryKeyValueStorage} (h : s.WF) (table : Str) :
    (((dictGet s.storage table).getD []).map Prod.fst).Nodup := by
  cases htbl : dictGet s.storage table with
  | none => simp
  | some tbl => simpa using h.2 _ (dictGet_mem htbl)

theorem WF.write {s : InMemoryKeyValueStorage} (h : s.WF) (table : Str) (key value : Json) :
    (s.write table key value).WF := by
  constructor
  · exact nodup_keys_dictSet _ _ _ h.1
  · intro p hp
    rcases mem_dictSet _ _ _ _ hp with hmem | heq
    · exact h.2 p hmem
    · subst heq
      exact nodup_keys_dictSet _ _ _ (h.table_nodup table)

end InMemoryKeyValueStorage

/-- One invocation of a mutating operation of the table store. -/
inductive StOp where
  | write (table : Str) (key value : Json)
  | delete (table : Str) (key : Json)
  | clear (table : Str)

/-- The table an operation addresses. -/
def StOp.table : StOp → Str
  | .write t _ _ => t
  | .delete t _ => t
  | .clear t => t

/-- Apply one operation to the store. -/
def StOp.apply (s : InMemoryKeyValueStorage) : StOp → InMemoryKeyValueStorage
  | .write t k v => s.write t k v
  | .delete t k => s.delete t k
  | .clear t => s.clear_table t

/-- Apply a sequence of operations, oldest first. -/
def applyOps (s : InMemoryKeyValueStorage) (ops : List StOp) : InMemoryKeyValueStorage :=
  ops.foldl StOp.apply s

/-- An operation on some other table never makes a table appear:
`read_all` of table `t` is unchanged by any operation addressing `t' ≠ t`. -/
theorem read_all_apply_other (s : InMemoryKeyValueStorage) (op : StOp) (t : Str)
    (hne : op.table ≠ t) : (op.apply s).read_all t = s.read_all t := by
  cases op with
  | write t' k v =>
      exact dictGet_dictSet_ne _ _ _ _ fun hh => hne hh.symm
  | delete t' k =>
      simp only [StOp.apply, InMemoryKeyValueStorage.delete]
      cases htbl : dictGet s.storage t' with
      | none => rfl
      | some tbl =>
          by_cases hk : (dictGet tbl k).isSome
          · simp only [hk, if_pos]
            exact dictGet_dictSet_ne _ _ _ _ fun hh => hne hh.symm
          · simp [hk]
  | clear t' =>
      simp only [StOp.apply, InMemoryKeyValueStorage.clear_table]
      cases htbl : dictGet s.storage t' with
      | none => rfl
      | some tbl => exact dictGet_dictSet_ne _ _ _ _ fun hh => hne hh.symm

/-! ### `src/publishing/parsing.py`: `parse_symbols_info`

The function is dynamically typed; its uses of `.get` degrade missing keys
to `None` (here: `Json.null`) or to a default.  Where CPython would raise
on a type mismatch — iterating a non-list, or calling `.get` on a
non-dict — the model returns the corresponding `PyErr`. -/

/-- Python `for x in v`: the payload fields iterated here (`symbols`,
`filters`) are lists; a non-list raises `TypeError`. -/
def Json.asList : Json → Except PyErr (List Json)
  | .arr l => .ok l
  | _ => .error .typeError

/-- Python `v.get(...)` on a non-dict raises `AttributeError`. -/
def Json.asDict : Json → Except PyErr Dict
  | .obj d => .ok d
  | _ => .error .attributeError

/-- The six per-symbol metadata variables, all initialized to `None`. -/
structure FilterFields where
  tick_size : Json
  min_price : Json
  max_price : Json
  min_qty : Json
  max_qty : Json
  step_size : Json
  deriving DecidableEq

def initFilterFields : FilterFields := ⟨.null, .null, .null, .null, .null, .null⟩

/-- One iteration of `for filter_info in symbol_info.get("filters", [])`:
a `PRICE_FILTER` overwrites the price fields, a `LOT_SIZE` the quantity
fields, anything else is skipped. -/
def applyFilterInfo (acc : FilterFields) (filter_info : Json) : Except PyErr FilterFields := do
  let fi ← filter_info.asDict
  if (dictGet fi "filterType".toList).getD .null = .str "PRICE_FILTER".toList then
    pure ⟨(dictGet fi "tickSize".toList).getD .null,
          (dictGet fi "minPrice".toList).getD .null,
          (dictGet fi "maxPrice".toList).getD .null,
          acc.min_qty, acc.max_qty, acc.step_size⟩
  else if (dictGet fi "filterType".toList).getD .null = .str "LOT_SIZE".toList then
    pure ⟨acc.tick_size, acc.min_price, acc.max_price,
          (dictGet fi "minQty".toList).getD .null,
          (dictGet fi "maxQty".toList).getD .null,
          (dictGet fi "stepSize".toList).getD .null⟩
  else pure acc

/-- Body of `for symbol_info in response.get("symbols", [])`: build the
per-symbol record and store it under `symbol_metadata[symbol]`.  A missing
`"symbol"` key gives the record the key `None` (a legal dict key in
Python). -/
def parseSymbolInfo (acc : List (Json × Json)) (symbol_info : Json) :
    Except PyErr (List (Json × Json)) := do
  let si ← symbol_info.asDict
  let symbol := (dictGet si "symbol".toList).getD .null
  let status := (dictGet si "status".toList).getD .null
  let base_asset := (dictGet si "baseAsset".toList).getD .null
  let quote_asset := (dictGet si "quoteAsset".toList).getD .null
  let filters ← ((dictGet si "filters".toList).getD (.arr [])).asList
  let f ← filters.foldlM applyFilterInfo initFilterFields
  pure (dictSet acc symbol (.obj [
    ("symbol".toList, symbol),
    ("baseAsset".toList, base_asset),
    ("quoteAsset".toList, quote_asset),
    ("tickSize".toList, f.tick_size),
    ("minPrice".toList, f.min_price),
    ("maxPrice".toList, f.max_price),
    ("lotSize".toList, .obj [
      ("minQty".toList, f.min_qty),
      ("maxQty".toList, f.max_qty),
      ("stepSize".toList, f.step_size)]),
    ("status".toList, status)]))

/-- `parse_symbols_info(response)`: extract per-symbol metadata from a
Binance `exchangeInfo` response.  Returns the `symbol_metadata` dict. -/
def parse_symbols_info (response : Dict) : Except PyErr (List (Json × Json)) := do
  let symbolsList ← ((dictGet response "symbols".toList).getD (.arr [])).asList
  symbolsList.foldlM parseSymbolInfo []

/-! ### `src/publishing/core.py`: `KeyValueStorePubSub` (Table-Store Sink)

`publish` writes through to the store; a raising lookup
(`message['rateLimits']`) is reported as `some PyErr` alongside the state
the store had reached when the exception fired (the preceding per-symbol
writes have already happened).  The source's two `if` statements have
disjoint conditions, so they are embedded as a chain. -/

def KeyValueStorePubSub.publish (store : InMemoryKeyValueStorage) (topic : Str)
    (message : Dict) : InMemoryKeyValueStorage × Option PyErr :=
  if topic = "exchange_info".toList then
    match parse_symbols_info message with
    | .error e => (store, some e)
    | .ok symbols_info =>
      let store := symbols_info.foldl
        (fun st p => st.write "symbols".toList p.1 p.2) store
      match dictGet message "rateLimits".toList with
      | none => (store, some .keyError)
      | some rl => (store.write topic (.str "rateLimits".toList) rl, none)
  else if topic = "system_status".toList ∨ topic = "account_info".toList then
    (message.foldl (fun st p => st.write topic (.str p.1) p.2) store, none)
  else (store, none)

/-- `KeyValueStorePubSub.close` is `pass`. -/
def KeyValueStorePubSub.close (store : InMemoryKeyValueStorage) : InMemoryKeyValueStorage :=
  store

/-! ### `json.dumps` (CPython, default options)

`FilePubSub.publish` serializes each message with `json.dumps(message)`:
default separators `", "` / `": "`, `ensure_ascii=True` (every character
outside `0x20..0x7e` is escaped, `\uXXXX` with lowercase hex digits and
UTF-16 surrogate pairs above the BMP), and the short escapes
`\" \\ \n \t \r \b \f` for their characters. -/

/-- Value of `n < 16` as a lowercase hex digit (also used for decimal
digits when `n < 10`). -/
def hexDigitChar (n : Nat) : Char := Char.ofNat (if n < 10 then 48 + n else 87 + n)

/-- Decimal digits of `n`, most significant first: `str(n)` for `n ≥ 0`. -/
def natDigits (n : Nat) : Str :=
  if n < 10 then [hexDigitChar n]
  else natDigits (n / 10) ++ [hexDigitChar (n % 10)]
termination_by n
decreasing_by simp_wf; omega

/-- Four lowercase hex digits of `n < 0x10000` (the `XXXX` in `\uXXXX`). -/
def hex4 (n : Nat) : Str :=
  [hexDigitChar (n / 4096 % 16), hexDigitChar (n / 256 % 16),
   hexDigitChar (n / 16 % 16), hexDigitChar (n % 16)]

/-- How `json.dumps` renders one character of a string. -/
def escapeChar (c : Char) : Str :=
  if c = '"' then ['\\', '"']
  else if c = '\\' then ['\\', '\\']
  else if c = '\n' then ['\\', 'n']
  else if c = '\t' then ['\\', 't']
  else if c = '\r' then ['\\', 'r']
  else if c.toNat = 8 then ['\\', 'b']
  else if c.toNat = 12 then ['\\', 'f']
  else if c.toNat < 0x20 then '\\' :: 'u' :: hex4 c.toNat
  else if c.toNat ≤ 0x7e then [c]
  else if c.toNat < 0x10000 then '\\' :: 'u' :: hex4 c.toNat
  else
    ('\\' :: 'u' :: hex4 (0xd800 + (c.toNat - 0x10000) / 0x400)) ++
    ('\\' :: 'u' :: hex4 (0xdc00 + (c.toNat - 0x10000) % 0x400))

/-- String contents as rendered between the quotes. -/
def escapeString : Str → Str
  | [] => []
  | c :: rest => escapeChar c ++ escapeString rest

mutual

/-- `json.dumps` with its default separators `", "` and `": "`. -/
def Json.dumps : Json → Str
  | .null => "null".toList
  | .bool true => "true".toList
  | .bool false => "false".toList
  | .num n => if n < 0 then '-' :: natDigits n.natAbs else natDigits n.toNat
  | .str s => '"' :: (escapeString s ++ ['"'])
  | .arr l => '[' :: (Json.dumpsList l ++ [']'])
  | .obj m => '{' :: (Json.dumpsMembers m ++ ['}'])

def Json.dumpsList : List Json → Str
  | [] => []
  | [x] => Json.dumps x
  | x :: y :: rest => Json.dumps x ++ (',' :: ' ' :: Json.dumpsList (y :: rest))

def Json.dumpsMembers : List (Str × Json) → Str
  | [] => []
  | [(k, v)] => ('"' :: (escapeString k ++ ['"'])) ++ (':' :: ' ' :: Json.dumps v)
  | (k, v) :: p :: rest =>
      ('"' :: (escapeString k ++ ['"'])) ++ (':' :: ' ' :: Json.dumps v) ++
      (',' :: ' ' :: Json.dumpsMembers (p :: rest))

end

/-! ### `json.loads`

Recursive-descent parser for the grammar `json.dumps` emits, with the
general whitespace skipping of `json.loads` and strict-mode rejection of
raw control characters in strings.  Deliberate deviations from CPython,
irrelevant for documents that arise from Python values: a lone UTF-16
surrogate escape is rejected (Lean strings hold only Unicode scalar
values), floating-point literals are rejected (numbers in this model are
integers), and an object is returned as the list of its key/value pairs
in parse order (a real dict additionally collapses duplicate keys, which
cannot occur in the output of `dumps` on a Python value). -/

def isJsonWs (c : Char) : Bool := c = ' ' || c = '\t' || c = '\n' || c = '\r'

def skipWs : Str → Str
  | [] => []
  | c :: rest => if isJsonWs c then skipWs rest else c :: rest

/-- Decode one hex digit, either case. -/
def ofHexDigit (c : Char) : Option Nat :=
  if '0' ≤ c ∧ c ≤ '9' then some (c.toNat - 48)
  else if 'a' ≤ c ∧ c ≤ 'f' then some (c.toNat - 87)
  else if 'A' ≤ c ∧ c ≤ 'F' then some (c.toNat - 55)
  else none

/-- Decode the four hex digits of a `\uXXXX` escape. -/
def ofHex4 (h1 h2 h3 h4 : Char) : Option Nat :=
  match ofHexDigit h1, ofHexDigit h2, ofHexDigit h3, ofHexDigit h4 with
  | some a, some b, some c, some d => some (((a * 16 + b) * 16 + c) * 16 + d)
  | _, _, _, _ => none

/-- The single-character escapes `json.loads` accepts after a backslash. -/
def shortEscape (e : Char) : Option Char :=
  if e = '"' then some '"'
  else if e = '\\' then some '\\'
  else if e = '/' then some '/'
  else if e = 'n' then some '\n'
  else if e = 't' then some '\t'
  else if e = 'r' then some '\r'
  else if e = 'b' then some (Char.ofNat 8)
  else if e = 'f' then some (Char.ofNat 12)
  else none

mutual

/-- Parse the body of a string literal after the opening quote, returning
the decoded characters and the input after the closing quote. -/
def parseStringBody : Str → Option (Str × Str)
  | [] => none
  | c :: rest =>
    if c = '"' then some ([], rest)
    else if c = '\\' then parseEscape rest
    else if c.toNat < 0x20 then none
    else
      match parseStringBody rest with
      | some (s, r) => some (c :: s, r)
      | none => none

/-- Parse what follows a backslash inside a string literal. -/
def parseEscape : Str → Option (Str × Str)
  | 'u' :: h1 :: h2 :: h3 :: h4 :: rest =>
      (match ofHex4 h1 h2 h3 h4 with
       | none => none
       | some n =>
         if 0xd800 ≤ n ∧ n ≤ 0xdbff then parseLowSurrogate n rest
         else if 0xdc00 ≤ n ∧ n ≤ 0xdfff then none
         else
           match parseStringBody rest with
           | some (s, r) => some (Char.ofNat n :: s, r)
           | none => none)
  | e :: rest =>
      (match shortEscape e with
       | none => none
       | some c =>
         match parseStringBody rest with
         | some (s, r) => some (c :: s, r)
         | none => none)
  | [] => none

/-- After a high-surrogate escape, a low-surrogate escape must follow; the
pair decodes to one supplementary-plane character. -/
def parseLowSurrogate (n : Nat) : Str → Option (Str × Str)
  | '\\' :: 'u' :: g1 :: g2 :: g3 :: g4 :: rest2 =>
      (match ofHex4 g1 g2 g3 g4 with
       | none => none
       | some m =>
         if 0xdc00 ≤ m ∧ m ≤ 0xdfff then
           match parseStringBody rest2 with
           | some (s, r) =>
               some (Char.ofNat (0x10000 + (n - 0xd800) * 0x400 + (m - 0xdc00)) :: s, r)
           | none => none
         else none)
  | _ => none

end

/-- Longest digit prefix and the remainder. -/
def spanDigits : Str → Str × Str
  | [] => ([], [])
  | c :: rest =>
      if c.isDigit then
        let (d, r) := spanDigits rest
        (c :: d, r)
      else ([], c :: rest)

/-- Value of a string of decimal digits. -/
def digitsToNat (ds : Str) : Nat := ds.foldl (fun a c => a * 10 + (c.toNat - 48)) 0

/-- A fraction or exponent follows: the literal is a float, outside this
model. -/
def floatFollows : Str → Bool
  | c :: _ => c = '.' || c = 'e' || c = 'E'
  | [] => false

/-- Parse an integer literal (JSON forbids leading zeros). -/
def parseNumber (s : Str) : Option (Json × Str) :=
  if s.head? = some '-' then
    let p := spanDigits s.tail
    if p.1 = [] then none
    else if p.1.length > 1 ∧ p.1.head? = some '0' then none
    else if floatFollows p.2 then none
    else some (.num (-(digitsToNat p.1 : Int)), p.2)
  else
    let p := spanDigits s
    if p.1 = [] then none
    else if p.1.length > 1 ∧ p.1.head? = some '0' then none
    else if floatFollows p.2 then none
    else some (.num (digitsToNat p.1), p.2)

mutual

/-- Parse one JSON value.  `fuel` bounds the recursion depth; `loads`
supplies more fuel than any input can consume. -/
def parseVal : Nat → Str → Option (Json × Str)
  | 0, _ => none
  | fuel + 1, s =>
    match s with
    | [] => none
    | c :: rest =>
      if c = '{' then
        let s1 := skipWs rest
        if s1.head? = some '}' then some (.obj [], s1.tail)
        else
          match parseMembers fuel s1 with
          | some (m, r) => some (.obj m, r)
          | none => none
      else if c = '[' then
        let s1 := skipWs rest
        if s1.head? = some ']' then some (.arr [], s1.tail)
        else
          match parseItems fuel s1 with
          | some (l, r) => some (.arr l, r)
          | none => none
      else if c = '"' then
        match parseStringBody rest with
        | some (cs, r) => some (.str cs, r)
        | none => none
      else if c = 't' then
        match rest with
        | 'r' :: 'u' :: 'e' :: r => some (.bool true, r)
        | _ => none
      else if c = 'f' then
        match rest with
        | 'a' :: 'l' :: 's' :: 'e' :: r => some (.bool false, r)
        | _ => none
      else if c = 'n' then
        match rest with
        | 'u' :: 'l' :: 'l' :: r => some (.null, r)
        | _ => none
      else if c = '-' ∨ c.isDigit then parseNumber (c :: rest)
      else none

/-- Parse the comma-separated items of a non-empty array, up to and
including the closing bracket. -/
def parseItems : Nat → Str → Option (List Json × Str)
  | 0, _ => none
  | fuel + 1, s =>
    match parseVal fuel s with
    | none => none
    | some (v, r) =>
      match skipWs r with
      | ',' :: r2 =>
          (match parseItems fuel (skipWs r2) with
           | some (vs, r3) => some (v :: vs, r3)
           | none => none)
      | ']' :: r2 => some ([v], r2)
      | _ => none

/-- Parse the members of a non-empty object, up to and including the
closing brace. -/
def parseMembers : Nat → Str → Option (List (Str × Json) × Str)
  | 0, _ => none
  | fuel + 1, s =>
    match s with
    | '"' :: s1 =>
      (match parseStringBody s1 with
       | none => none
       | some (k, r1) =>
         match skipWs r1 with
         | ':' :: r2 =>
             (match parseVal fuel (skipWs r2) with
              | none => none
              | some (v, r3) =>
                match skipWs r3 with
                | ',' :: r4 =>
                    (match parseMembers fuel (skipWs r4) with
                     | some (ms, r5) => some ((k, v) :: ms, r5)
                     | none => none)
                | '}' :: r4 => some ([(k, v)], r4)
                | _ => none)
         | _ => none)
    | _ => none

end

/-- `json.loads`: parse a complete document, requiring only whitespace
after the value. -/
def Json.loads (s : Str) : Option Json :=
  match parseVal (s.length + 1) (skipWs s) with
  | some (j, r) => if skipWs r = [] then some j else none
  | none => none

/-! ### Round-trip lemmas: digits and hex -/

theorem ofHexDigit_hexDigitChar : ∀ d < 16, ofHexDigit (hexDigitChar d) = some d := by decide

theorem hexDigitChar_isDigit : ∀ d < 10, (hexDigitChar d).isDigit = true := by decide

theorem hexDigitChar_toNat : ∀ d < 10, (hexDigitChar d).toNat = 48 + d := by decide

theorem hexDigitChar_ne_zero_digit : ∀ d, 1 ≤ d → d < 10 → hexDigitChar d ≠ '0' := by decide

theorem ofHex4_hex4 (n : Nat) (h : n < 65536) :
    ofHex4 (hexDigitChar (n / 4096 % 16)) (hexDigitChar (n / 256 % 16))
      (hexDigitChar (n / 16 % 16)) (hexDigitChar (n % 16)) = some n := by
  rw [ofHex4, ofHexDigit_hexDigitChar _ (by omega), ofHexDigit_hexDigitChar _ (by omega),
    ofHexDigit_hexDigitChar _ (by omega), ofHexDigit_hexDigitChar _ (by omega)]
  simp only [Option.some.injEq]
  omega

theorem natDigits_ne_nil (n : Nat) : natDigits n ≠ [] := by
  rw [natDigits]
  split <;> simp

theorem mem_natDigits_isDigit (n : Nat) : ∀ c ∈ natDigits n, c.isDigit = true := by
  induction n using Nat.strong_induction_on with
  | _ n ih =>
    rw [natDigits]
    split
    · next h =>
      intro c hc
      rcases List.mem_singleton.1 hc with rfl
      exact hexDigitChar_isDigit n h
    · next h =>
      intro c hc
      rcases List.mem_append.1 hc with hc | hc
      · exact ih (n / 10) (by omega) c hc
      · rcases List.mem_singleton.1 hc with rfl
        exact hexDigitChar_isDigit (n % 10) (by omega)

theorem natDigits_cons_digit (n : Nat) :
    ∃ d t, natDigits n = d :: t ∧ d.isDigit = true := by
  cases hnd : natDigits n with
  | nil => exact absurd hnd (natDigits_ne_nil n)
  | cons d t =>
    exact ⟨d, t, rfl, mem_natDigits_isDigit n d (hnd ▸ List.mem_cons_self d t)⟩

theorem digitsToNat_natDigits (n : Nat) : digitsToNat (natDigits n) = n := by
  induction n using Nat.strong_induction_on with
  | _ n ih =>
    rw [natDigits]
    split
    · next h =>
      show List.foldl _ 0 [hexDigitChar n] = n
      simp only [List.foldl_cons, List.foldl_nil]
      rw [hexDigitChar_toNat n h]
      omega
    · next h =>
      show List.foldl _ 0 (natDigits (n / 10) ++ [hexDigitChar (n % 10)]) = n
      rw [List.foldl_append]
      have h1 : List.foldl (fun a c => a * 10 + (c.toNat - 48)) 0 (natDigits (n / 10)) = n / 10 :=
        ih (n / 10) (by omega)
      rw [h1]
      simp only [List.foldl_cons, List.foldl_nil]
      rw [hexDigitChar_toNat (n % 10) (by omega)]
      omega

theorem natDigits_head_ne_zero (n : Nat) (h : 1 ≤ n) :
    (natDigits n).head? ≠ some '0' := by
  induction n using Nat.strong_induction_on with
  | _ n ih =>
    rw [natDigits]
    split
    · next h2 =>
      simpa using hexDigitChar_ne_zero_digit n h h2
    · next h2 =>
      rw [List.head?_append_of_ne_nil _ (natDigits_ne_nil (n / 10))]
      exact ih (n / 10) (by omega) (by omega)

theorem natDigits_no_leading_zero (n : Nat) :
    ¬((natDigits n).length > 1 ∧ (natDigits n).head? = some '0') := by
  rintro ⟨hlen, hhead⟩
  by_cases h : n = 0
  · subst h
    have h0 : natDigits 0 = ['0'] := by rw [natDigits]; simp; decide
    rw [h0] at hlen
    simp at hlen
  · exact natDigits_head_ne_zero n (by omega) hhead

theorem spanDigits_append (ds r : Str) (hds : ∀ c ∈ ds, c.isDigit = true)
    (hr : ∀ c ∈ r.head?, c.isDigit = false) :
    spanDigits (ds ++ r) = (ds, r) := by
  induction ds with
  | nil =>
    cases r with
    | nil => rfl
    | cons c t =>
      have : c.isDigit = false := hr c (by simp)
      simp [spanDigits, this]
  | cons c t ih =>
    have hc : c.isDigit = true := hds c (List.mem_cons_self c t)
    simp only [List.cons_append, spanDigits, hc, if_pos]
    have ht := ih fun x hx => hds x (List.mem_cons_of_mem c hx)
    show (c :: (spanDigits (t ++ r)).1, (spanDigits (t ++ r)).2) = (c :: t, r)
    rw [ht]

/-- Continuations an integer literal may be followed by in this grammar:
end of input, or a delimiter that is neither a digit nor a fraction or
exponent mark. -/
def NumDelim : Str → Prop
  | [] => True
  | c :: _ => c.isDigit = false ∧ c ≠ '.' ∧ c ≠ 'e' ∧ c ≠ 'E'

theorem isDigit_ne (c : Char) (h : c.isDigit = true) :
    c ≠ '-' ∧ c ≠ '{' ∧ c ≠ '[' ∧ c ≠ '"' ∧ c ≠ 't' ∧ c ≠ 'f' ∧ c ≠ 'n' ∧
      c ≠ ']' ∧ c ≠ '}' ∧ isJsonWs c = false := by
  have hws : isJsonWs c = false := by
    have h1 : c ≠ ' ' := by rintro rfl; exact absurd h (by decide)
    have h2 : c ≠ '\t' := by rintro rfl; exact absurd h (by decide)
    have h3 : c ≠ '\n' := by rintro rfl; exact absurd h (by decide)
    have h4 : c ≠ '\r' := by rintro rfl; exact absurd h (by decide)
    simp [isJsonWs, h1, h2, h3, h4]
  exact ⟨by rintro rfl; exact absurd h (by decide), by rintro rfl; exact absurd h (by decide),
    by rintro rfl; exact absurd h (by decide), by rintro rfl; exact absurd h (by decide),
    by rintro rfl; exact absurd h (by decide), by rintro rfl; exact absurd h (by decide),
    by rintro rfl; exact absurd h (by decide), by rintro rfl; exact absurd h (by decide),
    by rintro rfl; exact absurd h (by decide), hws⟩

theorem parseNumber_dumps (n : Int) (rest : Str) (hrest : NumDelim rest) :
    parseNumber (Json.dumps (.num n) ++ rest) = some (.num n, rest) := by
  have hrest' : ∀ c ∈ rest.head?, c.isDigit = false := by
    cases rest with
    | nil => simp
    | cons c t =>
      intro x hx
      rcases Option.mem_some_iff.1 hx
      exact hrest.1
  have hfloat : floatFollows rest = false := by
    cases rest with
    | nil => rfl
    | cons c t =>
      obtain ⟨h1, h2, h3, h4⟩ := hrest
      simp [floatFollows, h2, h3, h4]
  by_cases hn : n < 0
  · have hd : Json.dumps (.num n) = '-' :: natDigits n.natAbs := by
      rw [Json.dumps, if_pos hn]
    have hspan := spanDigits_append (natDigits n.natAbs) rest
      (mem_natDigits_isDigit n.natAbs) hrest'
    rw [hd]
    simp only [List.cons_append, parseNumber, List.head?_cons, List.tail_cons, if_true]
    rw [hspan]
    rw [if_neg (by simpa using natDigits_ne_nil n.natAbs),
      if_neg (natDigits_no_leading_zero n.natAbs), if_neg (by simp [hfloat]),
      digitsToNat_natDigits]
    simp only [Option.some.injEq, Prod.mk.injEq, Json.num.injEq, and_true]
    omega
  · have hd : Json.dumps (.num n) = natDigits n.toNat := by
      rw [Json.dumps, if_neg hn]
    have hspan := spanDigits_append (natDigits n.toNat) rest
      (mem_natDigits_isDigit n.toNat) hrest'
    rcases natDigits_cons_digit n.toNat with ⟨d, t, hdt, hdig⟩
    have hdm : d ≠ '-' := (isDigit_ne d hdig).1
    rw [hd, parseNumber]
    rw [if_neg (by rw [hdt]; simpa using hdm)]
    rw [hspan]
    rw [if_neg (by simpa using natDigits_ne_nil n.toNat),
      if_neg (natDigits_no_leading_zero n.toNat), if_neg (by simp [hfloat]),
      digitsToNat_natDigits]
    simp only [Option.some.injEq, Prod.mk.injEq, Json.num.injEq, and_true]
    omega

theorem char_toNat_valid (c : Char) :
    c.toNat < 0xd800 ∨ (0xdfff < c.toNat ∧ c.toNat < 0x110000) := by
  rcases c.valid with h | ⟨h1, h2⟩
  · left; exact h
  · right; exact ⟨h1, h2⟩

theorem parseStringBody_backslash (X : Str) :
    parseStringBody ('\\' :: X) = parseEscape X := rfl

theorem parseEscape_u_plain (a b c d : Char) (E : Str) (n : Nat)
    (hhex : ofHex4 a b c d = some n)
    (hlo : ¬(0xd800 ≤ n ∧ n ≤ 0xdbff)) (hhi : ¬(0xdc00 ≤ n ∧ n ≤ 0xdfff)) :
    parseEscape ('u' :: a :: b :: c :: d :: E) =
      (match parseStringBody E with
       | some (s, r) => some (Char.ofNat n :: s, r)
       | none => none) := by
  rw [parseEscape]
  simp only [hhex]
  rw [if_neg hlo, if_neg hhi]

theorem parseEscape_u_pair (a b c d g1 g2 g3 g4 : Char) (E : Str) (n m : Nat)
    (hhex1 : ofHex4 a b c d = some n) (hn : 0xd800 ≤ n ∧ n ≤ 0xdbff)
    (hhex2 : ofHex4 g1 g2 g3 g4 = some m) (hm : 0xdc00 ≤ m ∧ m ≤ 0xdfff) :
    parseEscape ('u' :: a :: b :: c :: d :: '\\' :: 'u' :: g1 :: g2 :: g3 :: g4 :: E) =
      (match parseStringBody E with
       | some (s, r) =>
           some (Char.ofNat (0x10000 + (n - 0xd800) * 0x400 + (m - 0xdc00)) :: s, r)
       | none => none) := by
  rw [parseEscape]
  simp only [hhex1]
  rw [if_pos hn, parseLowSurrogate]
  simp only [hhex2]
  rw [if_pos hm]

theorem parseStringBody_escape (s rest : Str) :
    parseStringBody (escapeString s ++ ('"' :: rest)) = some (s, rest) := by
  induction s with
  | nil =>
    show parseStringBody ('"' :: rest) = some ([], rest)
    rw [parseStringBody, if_pos rfl]
  | cons c t ih =>
    rw [escapeString, List.append_assoc]
    by_cases h1 : c = '"'
    · subst h1
      have hesc : escapeChar '"' = ['\\', '"'] := rfl
      rw [hesc]
      have hred : parseStringBody ('\\' :: '"' :: (escapeString t ++ ('"' :: rest))) =
          (match parseStringBody (escapeString t ++ ('"' :: rest)) with
           | some (s, r) => some ('"' :: s, r)
           | none => none) := rfl
      rw [show (['\\', '"'] : Str) ++ (escapeString t ++ ('"' :: rest)) =
        '\\' :: '"' :: (escapeString t ++ ('"' :: rest)) from rfl, hred, ih]
    by_cases h2 : c = '\\'
    · subst h2
      have hred : parseStringBody ('\\' :: '\\' :: (escapeString t ++ ('"' :: rest))) =
          (match parseStringBody (escapeString t ++ ('"' :: rest)) with
           | some (s, r) => some ('\\' :: s, r)
           | none => none) := rfl
      rw [show escapeChar '\\' ++ (escapeString t ++ ('"' :: rest)) =
        '\\' :: '\\' :: (escapeString t ++ ('"' :: rest)) from rfl, hred, ih]
    by_cases h3 : c = '\n'
    · subst h3
      have hred : parseStringBody ('\\' :: 'n' :: (escapeString t ++ ('"' :: rest))) =
          (match parseStringBody (escapeString t ++ ('"' :: rest)) with
           | some (s, r) => some ('\n' :: s, r)
           | none => none) := rfl
      rw [show escapeChar '\n' ++ (escapeString t ++ ('"' :: rest)) =
        '\\' :: 'n' :: (escapeString t ++ ('"' :: rest)) from rfl, hred, ih]
    by_cases h4 : c = '\t'
    · subst h4
      have hred : parseStringBody ('\\' :: 't' :: (escapeString t ++ ('"' :: rest))) =
          (match parseStringBody (escapeString t ++ ('"' :: rest)) with
           | some (s, r) => some ('\t' :: s, r)
           | none => none) := rfl
      rw [show escapeChar '\t' ++ (escapeString t ++ ('"' :: rest)) =
        '\\' :: 't' :: (escapeString t ++ ('"' :: rest)) from rfl, hred, ih]
    by_cases h5 : c = '\r'
    · subst h5
      have hred : parseStringBody ('\\' :: 'r' :: (escapeString t ++ ('"' :: rest))) =
          (match parseStringBody (escapeString t ++ ('"' :: rest)) with
           | some (s, r) => some ('\r' :: s, r)
           | none => none) := rfl
      rw [show escapeChar '\r' ++ (escapeString t ++ ('"' :: rest)) =
        '\\' :: 'r' :: (escapeString t ++ ('"' :: rest)) from rfl, hred, ih]
    by_cases h6 : c.toNat = 8
    · have hesc : escapeChar c = ['\\', 'b'] := by
        rw [escapeChar, if_neg h1, if_neg h2, if_neg h3, if_neg h4, if_neg h5, if_pos h6]
      have hc : Char.ofNat 8 = c := by rw [← h6]; exact Char.ofNat_toNat c
      have hred : parseStringBody ('\\' :: 'b' :: (escapeString t ++ ('"' :: rest))) =
          (match parseStringBody (escapeString t ++ ('"' :: rest)) with
           | some (s, r) => some (Char.ofNat 8 :: s, r)
           | none => none) := rfl
      rw [hesc, show (['\\', 'b'] : Str) ++ (escapeString t ++ ('"' :: rest)) =
        '\\' :: 'b' :: (escapeString t ++ ('"' :: rest)) from rfl, hred, ih, hc]
    by_cases h7 : c.toNat = 12
    · have hesc : escapeChar c = ['\\', 'f'] := by
        rw [escapeChar, if_neg h1, if_neg h2, if_neg h3, if_neg h4, if_neg h5, if_neg h6,
          if_pos h7]
      have hc : Char.ofNat 12 = c := by rw [← h7]; exact Char.ofNat_toNat c
      have hred : parseStringBody ('\\' :: 'f' :: (escapeString t ++ ('"' :: rest))) =
          (match parseStringBody (escapeString t ++ ('"' :: rest)) with
           | some (s, r) => some (Char.ofNat 12 :: s, r)
           | none => none) := rfl
      rw [hesc, show (['\\', 'f'] : Str) ++ (escapeString t ++ ('"' :: rest)) =
        '\\' :: 'f' :: (escapeString t ++ ('"' :: rest)) from rfl, hred, ih, hc]
    by_cases h8 : c.toNat < 0x20
    · have hesc : escapeChar c = '\\' :: 'u' :: hex4 c.toNat := by
        rw [escapeChar, if_neg h1, if_neg h2, if_neg h3, if_neg h4, if_neg h5, if_neg h6,
          if_neg h7, if_pos h8]
      have hshape : ('\\' :: 'u' :: hex4 c.toNat) ++ (escapeString t ++ ('"' :: rest)) =
          '\\' :: 'u' :: hexDigitChar (c.toNat / 4096 % 16) ::
          hexDigitChar (c.toNat / 256 % 16) :: hexDigitChar (c.toNat / 16 % 16) ::
          hexDigitChar (c.toNat % 16) :: (escapeString t ++ ('"' :: rest)) := rfl
      rw [hesc, hshape, parseStringBody_backslash,
        parseEscape_u_plain _ _ _ _ _ c.toNat (ofHex4_hex4 c.toNat (by omega))
          (by omega) (by omega), ih, Char.ofNat_toNat]
    by_cases h9 : c.toNat ≤ 0x7e
    · have hesc : escapeChar c = [c] := by
        rw [escapeChar, if_neg h1, if_neg h2, if_neg h3, if_neg h4, if_neg h5, if_neg h6,
          if_neg h7, if_neg h8, if_pos h9]
      rw [hesc, List.singleton_append, parseStringBody]
      simp only [if_neg h1, if_neg h2, if_neg h8]
      rw [ih]
    by_cases h10 : c.toNat < 0x10000
    · have hesc : escapeChar c = '\\' :: 'u' :: hex4 c.toNat := by
        rw [escapeChar, if_neg h1, if_neg h2, if_neg h3, if_neg h4, if_neg h5, if_neg h6,
          if_neg h7, if_neg h8, if_neg h9, if_pos h10]
      have hval := char_toNat_valid c
      have hshape : ('\\' :: 'u' :: hex4 c.toNat) ++ (escapeString t ++ ('"' :: rest)) =
          '\\' :: 'u' :: hexDigitChar (c.toNat / 4096 % 16) ::
          hexDigitChar (c.toNat / 256 % 16) :: hexDigitChar (c.toNat / 16 % 16) ::
          hexDigitChar (c.toNat % 16) :: (escapeString t ++ ('"' :: rest)) := rfl
      rw [hesc, hshape, parseStringBody_backslash,
        parseEscape_u_plain _ _ _ _ _ c.toNat (ofHex4_hex4 c.toNat (by omega))
          (by omega) (by omega), ih, Char.ofNat_toNat]
    · have hesc : escapeChar c =
          ('\\' :: 'u' :: hex4 (0xd800 + (c.toNat - 0x10000) / 0x400)) ++
          ('\\' :: 'u' :: hex4 (0xdc00 + (c.toNat - 0x10000) % 0x400)) := by
        rw [escapeChar, if_neg h1, if_neg h2, if_neg h3, if_neg h4, if_neg h5, if_neg h6,
          if_neg h7, if_neg h8, if_neg h9, if_neg h10]
      have hval := char_toNat_valid c
      have hshape : (('\\' :: 'u' :: hex4 (0xd800 + (c.toNat - 0x10000) / 0x400)) ++
            ('\\' :: 'u' :: hex4 (0xdc00 + (c.toNat - 0x10000) % 0x400))) ++
            (escapeString t ++ ('"' :: rest)) =
          '\\' :: 'u' ::
          hexDigitChar ((0xd800 + (c.toNat - 0x10000) / 0x400) / 4096 % 16) ::
          hexDigitChar ((0xd800 + (c.toNat - 0x10000) / 0x400) / 256 % 16) ::
          hexDigitChar ((0xd800 + (c.toNat - 0x10000) / 0x400) / 16 % 16) ::
          hexDigitChar ((0xd800 + (c.toNat - 0x10000) / 0x400) % 16) ::
          '\\' :: 'u' ::
          hexDigitChar ((0xdc00 + (c.toNat - 0x10000) % 0x400) / 4096 % 16) ::
          hexDigitChar ((0xdc00 + (c.toNat - 0x10000) % 0x400) / 256 % 16) ::
          hexDigitChar ((0xdc00 + (c.toNat - 0x10000) % 0x400) / 16 % 16) ::
          hexDigitChar ((0xdc00 + (c.toNat - 0x10000) % 0x400) % 16) ::
          (escapeString t ++ ('"' :: rest)) := rfl
      rw [hesc, hshape, parseStringBody_backslash,
        parseEscape_u_pair _ _ _ _ _ _ _ _ _
          (0xd800 + (c.toNat - 0x10000) / 0x400) (0xdc00 + (c.toNat - 0x10000) % 0x400)
          (ofHex4_hex4 _ (by omega)) (by omega) (ofHex4_hex4 _ (by omega)) (by omega),
        ih]
      have harg : 0x10000 + (0xd800 + (c.toNat - 0x10000) / 0x400 - 0xd800) * 0x400 +
          (0xdc00 + (c.toNat - 0x10000) % 0x400 - 0xdc00) = c.toNat := by omega
      rw [harg, Char.ofNat_toNat]

theorem skipWs_not_ws {c : Char} (h : isJsonWs c = false) (t : Str) :
    skipWs (c :: t) = c :: t := by
  rw [skipWs, h]
  simp

theorem dumps_head_shape (j : Json) :
    ∃ c t, Json.dumps j = c :: t ∧ isJsonWs c = false ∧ c ≠ ']' ∧ c ≠ '}' := by
  cases j with
  | null => exact ⟨'n', ['u', 'l', 'l'], by rw [Json.dumps]; rfl, by decide, by decide, by decide⟩
  | bool b =>
    cases b with
    | true => exact ⟨'t', ['r', 'u', 'e'], by rw [Json.dumps]; rfl, by decide, by decide, by decide⟩
    | false =>
      exact ⟨'f', ['a', 'l', 's', 'e'], by rw [Json.dumps]; rfl, by decide, by decide, by decide⟩
  | num n =>
    by_cases hn : n < 0
    · exact ⟨'-', natDigits n.natAbs, by rw [Json.dumps, if_pos hn], by decide, by decide,
        by decide⟩
    · rcases natDigits_cons_digit n.toNat with ⟨d, t, hdt, hdig⟩
      obtain ⟨_, _, _, _, _, _, _, hne1, hne2, hws⟩ := isDigit_ne d hdig
      exact ⟨d, t, by rw [Json.dumps, if_neg hn, hdt], hws, hne1, hne2⟩
  | str s => exact ⟨'"', escapeString s ++ ['"'], by rw [Json.dumps], by decide, by decide,
      by decide⟩
  | arr l => exact ⟨'[', Json.dumpsList l ++ [']'], by rw [Json.dumps], by decide, by decide,
      by decide⟩
  | obj m => exact ⟨'{', Json.dumpsMembers m ++ ['}'], by rw [Json.dumps], by decide,
      by decide, by decide⟩

theorem skipWs_dumps_append (j : Json) (X : Str) :
    skipWs (Json.dumps j ++ X) = Json.dumps j ++ X := by
  obtain ⟨c, t, hct, hws, _, _⟩ := dumps_head_shape j
  rw [hct, List.cons_append, skipWs_not_ws hws]

theorem dumpsList_cons_shape (x : Json) (xs : List Json) :
    ∃ r, Json.dumpsList (x :: xs) = Json.dumps x ++ r := by
  cases xs with
  | nil => exact ⟨[], by rw [Json.dumpsList, List.append_nil]⟩
  | cons y ys => exact ⟨',' :: ' ' :: Json.dumpsList (y :: ys), by rw [Json.dumpsList]⟩

theorem skipWs_space (t : Str) : skipWs (' ' :: t) = skipWs t := rfl

theorem skipWs_dumpsList_append (y : Json) (ys : List Json) (X : Str) :
    skipWs (Json.dumpsList (y :: ys) ++ X) = Json.dumpsList (y :: ys) ++ X := by
  obtain ⟨r, hr⟩ := dumpsList_cons_shape y ys
  rw [hr, List.append_assoc, skipWs_dumps_append, ← List.append_assoc]

theorem dumpsMembers_cons_shape (q : Str × Json) (ms : List (Str × Json)) :
    ∃ r, Json.dumpsMembers (q :: ms) = '"' :: r := by
  obtain ⟨k, v⟩ := q
  cases ms with
  | nil =>
    exact ⟨(escapeString k ++ ['"']) ++ (':' :: ' ' :: Json.dumps v), by
      rw [Json.dumpsMembers, List.cons_append]⟩
  | cons p ps =>
    exact ⟨((escapeString k ++ ['"']) ++ (':' :: ' ' :: Json.dumps v)) ++
      (',' :: ' ' :: Json.dumpsMembers (p :: ps)), by
      rw [Json.dumpsMembers, List.cons_append, List.cons_append]⟩

theorem skipWs_dumpsMembers_append (q : Str × Json) (ms : List (Str × Json)) (X : Str) :
    skipWs (Json.dumpsMembers (q :: ms) ++ X) = Json.dumpsMembers (q :: ms) ++ X := by
  obtain ⟨r, hr⟩ := dumpsMembers_cons_shape q ms
  rw [hr, List.cons_append, skipWs_not_ws (by decide)]

mutual

/-- Parsing the serialization of any document recovers the document,
leaving any delimiter-safe continuation untouched. -/
theorem parseVal_dumps : ∀ (j : Json) (fuel : Nat) (rest : Str),
    (Json.dumps j).length < fuel → NumDelim rest →
    parseVal fuel (Json.dumps j ++ rest) = some (j, rest)
  | _, 0, _, hf, _ => absurd hf (Nat.not_lt_zero _)
  | .null, fuel + 1, rest, _, _ => by
      rw [show Json.dumps .null ++ rest = 'n' :: 'u' :: 'l' :: 'l' :: rest from rfl]
      rfl
  | .bool true, fuel + 1, rest, _, _ => by
      rw [show Json.dumps (.bool true) ++ rest = 't' :: 'r' :: 'u' :: 'e' :: rest from rfl]
      rfl
  | .bool false, fuel + 1, rest, _, _ => by
      rw [show Json.dumps (.bool false) ++ rest = 'f' :: 'a' :: 'l' :: 's' :: 'e' :: rest
        from rfl]
      rfl
  | .num n, fuel + 1, rest, _, hr => by
      by_cases hn : n < 0
      · have hd : Json.dumps (.num n) = '-' :: natDigits n.natAbs := by
          rw [Json.dumps, if_pos hn]
        rw [hd, List.cons_append]
        have hred : parseVal (fuel + 1) ('-' :: (natDigits n.natAbs ++ rest)) =
            parseNumber ('-' :: (natDigits n.natAbs ++ rest)) := rfl
        rw [hred, ← List.cons_append, ← hd]
        exact parseNumber_dumps n rest hr
      · have hd : Json.dumps (.num n) = natDigits n.toNat := by
          rw [Json.dumps, if_neg hn]
        rcases natDigits_cons_digit n.toNat with ⟨d, t, hdt, hdig⟩
        obtain ⟨_, hbr, hbk, hqu, ht, hfa, hnu, _, _, _⟩ := isDigit_ne d hdig
        rw [hd, hdt, List.cons_append]
        simp only [parseVal]
        rw [if_neg hbr, if_neg hbk, if_neg hqu, if_neg ht, if_neg hfa, if_neg hnu,
          if_pos (Or.inr hdig), ← List.cons_append, ← hdt]
        have hpn := parseNumber_dumps n rest hr
        rw [hd] at hpn
        exact hpn
  | .str sc, fuel + 1, rest, _, _ => by
      have hd : Json.dumps (.str sc) = '"' :: (escapeString sc ++ ['"']) := by
        rw [Json.dumps]
      rw [hd, List.cons_append]
      have hred : parseVal (fuel + 1) ('"' :: ((escapeString sc ++ ['"']) ++ rest)) =
          (match parseStringBody ((escapeString sc ++ ['"']) ++ rest) with
           | some (cs, r) => some (.str cs, r)
           | none => none) := rfl
      rw [hred, List.append_assoc, List.singleton_append, parseStringBody_escape]
  | .arr [], fuel + 1, rest, _, _ => by
      rw [show Json.dumps (.arr []) ++ rest = '[' :: ']' :: rest from rfl]
      rfl
  | .arr (x :: xs), fuel + 1, rest, hf, _ => by
      have hd : Json.dumps (.arr (x :: xs)) = '[' :: (Json.dumpsList (x :: xs) ++ [']']) := by
        rw [Json.dumps]
      have hX : (Json.dumpsList (x :: xs) ++ [']']) ++ rest =
          Json.dumpsList (x :: xs) ++ (']' :: rest) := by
        rw [List.append_assoc, List.singleton_append]
      have hlen : (Json.dumpsList (x :: xs)).length + 1 < fuel := by
        have := congrArg List.length hd
        simp at this
        omega
      rw [hd, List.cons_append, hX]
      simp only [parseVal]
      rw [if_neg (by decide), if_pos trivial]
      rw [skipWs_dumpsList_append]
      obtain ⟨r', hr'⟩ := dumpsList_cons_shape x xs
      obtain ⟨c, t, hct, _, hne1, _⟩ := dumps_head_shape x
      rw [if_neg (by
        rw [hr', hct, List.cons_append, List.cons_append, List.head?_cons]
        simp [hne1])]
      rw [parseItems_dumps (x :: xs) fuel rest (by simp) hlen]
  | .obj [], fuel + 1, rest, _, _ => by
      rw [show Json.dumps (.obj []) ++ rest = '{' :: '}' :: rest from rfl]
      rfl
  | .obj ((k, v) :: ms), fuel + 1, rest, hf, _ => by
      have hd : Json.dumps (.obj ((k, v) :: ms)) =
          '{' :: (Json.dumpsMembers ((k, v) :: ms) ++ ['}']) := by
        rw [Json.dumps]
      have hX : (Json.dumpsMembers ((k, v) :: ms) ++ ['}']) ++ rest =
          Json.dumpsMembers ((k, v) :: ms) ++ ('}' :: rest) := by
        rw [List.append_assoc, List.singleton_append]
      have hlen : (Json.dumpsMembers ((k, v) :: ms)).length + 1 < fuel := by
        have := congrArg List.length hd
        simp at this
        omega
      rw [hd, List.cons_append, hX]
      simp only [parseVal]
      rw [if_pos trivial]
      rw [skipWs_dumpsMembers_append]
      obtain ⟨r', hr'⟩ := dumpsMembers_cons_shape (k, v) ms
      rw [if_neg (by
        rw [hr', List.cons_append, List.head?_cons]
        simp)]
      rw [parseMembers_dumps ((k, v) :: ms) fuel rest (by simp) hlen]

theorem parseItems_dumps : ∀ (l : List Json) (fuel : Nat) (rest : Str), l ≠ [] →
    (Json.dumpsList l).length + 1 < fuel →
    parseItems fuel (Json.dumpsList l ++ (']' :: rest)) = some (l, rest)
  | [], _, _, hl, _ => absurd rfl hl
  | _, 0, _, _, hf => absurd hf (Nat.not_lt_zero _)
  | [x], fuel + 1, rest, _, hf => by
      have hdl : Json.dumpsList [x] = Json.dumps x := by rw [Json.dumpsList]
      have h1 : (Json.dumps x).length < fuel := by
        have := congrArg List.length hdl
        omega
      have hnd : NumDelim (']' :: rest) := ⟨by decide, by decide, by decide, by decide⟩
      rw [hdl]
      simp only [parseItems]
      rw [parseVal_dumps x fuel (']' :: rest) h1 hnd]
      simp only [skipWs_not_ws (show isJsonWs ']' = false by decide) rest]
  | x :: y :: ys, fuel + 1, rest, _, hf => by
      have hdl : Json.dumpsList (x :: y :: ys) =
          Json.dumps x ++ (',' :: ' ' :: Json.dumpsList (y :: ys)) := by
        rw [Json.dumpsList]
      have hlen : (Json.dumps x).length < fuel ∧
          (Json.dumpsList (y :: ys)).length + 1 < fuel := by
        have := congrArg List.length hdl
        simp at this
        omega
      have hnd : NumDelim (',' :: ' ' :: (Json.dumpsList (y :: ys) ++ (']' :: rest))) :=
        ⟨by decide, by decide, by decide, by decide⟩
      rw [hdl, List.append_assoc, List.cons_append, List.cons_append]
      simp only [parseItems]
      rw [parseVal_dumps x fuel _ hlen.1 hnd]
      simp only [skipWs_not_ws (show isJsonWs ',' = false by decide), skipWs_space,
        skipWs_dumpsList_append, parseItems_dumps (y :: ys) fuel rest (by simp) hlen.2]

theorem parseMembers_dumps : ∀ (m : List (Str × Json)) (fuel : Nat) (rest : Str), m ≠ [] →
    (Json.dumpsMembers m).length + 1 < fuel →
    parseMembers fuel (Json.dumpsMembers m ++ ('}' :: rest)) = some (m, rest)
  | [], _, _, hm, _ => absurd rfl hm
  | _, 0, _, _, hf => absurd hf (Nat.not_lt_zero _)
  | [(k, v)], fuel + 1, rest, _, hf => by
      have hdm : Json.dumpsMembers [(k, v)] =
          ('"' :: (escapeString k ++ ['"'])) ++ (':' :: ' ' :: Json.dumps v) := by
        rw [Json.dumpsMembers]
      have h1 : (Json.dumps v).length < fuel := by
        have := congrArg List.length hdm
        simp at this
        omega
      have hnd : NumDelim ('}' :: rest) := ⟨by decide, by decide, by decide, by decide⟩
      have hX : Json.dumpsMembers [(k, v)] ++ ('}' :: rest) =
          '"' :: (escapeString k ++
            ('"' :: (':' :: ' ' :: (Json.dumps v ++ ('}' :: rest))))) := by
        rw [hdm]
        simp [List.append_assoc]
      rw [hX]
      simp only [parseMembers]
      rw [parseStringBody_escape]
      simp only [skipWs_not_ws (show isJsonWs ':' = false by decide), skipWs_space,
        skipWs_dumps_append, parseVal_dumps v fuel ('}' :: rest) h1 hnd,
        skipWs_not_ws (show isJsonWs '}' = false by decide)]
  | (k, v) :: p :: ps, fuel + 1, rest, _, hf => by
      have hdm : Json.dumpsMembers ((k, v) :: p :: ps) =
          ('"' :: (escapeString k ++ ['"'])) ++ (':' :: ' ' :: Json.dumps v) ++
          (',' :: ' ' :: Json.dumpsMembers (p :: ps)) := by
        rw [Json.dumpsMembers]
      have hlen : (Json.dumps v).length < fuel ∧
          (Json.dumpsMembers (p :: ps)).length + 1 < fuel := by
        have := congrArg List.length hdm
        simp at this
        omega
      have hndv : NumDelim
          (',' :: ' ' :: (Json.dumpsMembers (p :: ps) ++ ('}' :: rest))) :=
        ⟨by decide, by decide, by decide, by decide⟩
      have hX : Json.dumpsMembers ((k, v) :: p :: ps) ++ ('}' :: rest) =
          '"' :: (escapeString k ++
            ('"' :: (':' :: ' ' :: (Json.dumps v ++
              (',' :: ' ' :: (Json.dumpsMembers (p :: ps) ++ ('}' :: rest))))))) := by
        rw [hdm]
        simp [List.append_assoc]
      rw [hX]
      simp only [parseMembers]
      rw [parseStringBody_escape]
      simp only [skipWs_not_ws (show isJsonWs ':' = false by decide),
        skipWs_not_ws (show isJsonWs ',' = false by decide), skipWs_space,
        skipWs_dumps_append, skipWs_dumpsMembers_append,
        parseVal_dumps v fuel (',' :: ' ' ::
          (Json.dumpsMembers (p :: ps) ++ ('}' :: rest))) hlen.1 hndv,
        parseMembers_dumps (p :: ps) fuel rest (by simp) hlen.2]

end

/-- Full serialization round-trip: `json.loads(json.dumps(m)) == m`. -/
theorem loads_dumps (j : Json) : Json.loads (Json.dumps j) = some j := by
  rw [Json.loads]
  have h0 : skipWs (Json.dumps j) = Json.dumps j := by
    have h := skipWs_dumps_append j []
    simpa using h
  rw [h0]
  have h1 := parseVal_dumps j ((Json.dumps j).length + 1) [] (by omega) trivial
  rw [List.append_nil] at h1
  simp only [h1]
  rfl

/-! ### Serialized output is newline-free (one log line per message) -/

theorem hexDigitChar_ne_newline : ∀ d < 16, hexDigitChar d ≠ '\n' := by decide

theorem newline_not_mem_natDigits (n : Nat) : '\n' ∉ natDigits n := by
  intro h
  exact absurd (mem_natDigits_isDigit n _ h) (by decide)

theorem newline_not_mem_hex4 (n : Nat) : '\n' ∉ hex4 n := by
  intro h
  simp only [hex4, List.mem_cons, List.not_mem_nil, or_false] at h
  rcases h with h | h | h | h <;>
    exact hexDigitChar_ne_newline _ (Nat.mod_lt _ (by omega)) h.symm

theorem newline_not_mem_escapeChar (c : Char) : '\n' ∉ escapeChar c := by
  by_cases h1 : c = '"'
  · subst h1; decide
  by_cases h2 : c = '\\'
  · subst h2; decide
  by_cases h3 : c = '\n'
  · subst h3; decide
  by_cases h4 : c = '\t'
  · subst h4; decide
  by_cases h5 : c = '\r'
  · subst h5; decide
  by_cases h6 : c.toNat = 8
  · rw [escapeChar, if_neg h1, if_neg h2, if_neg h3, if_neg h4, if_neg h5, if_pos h6]
    decide
  by_cases h7 : c.toNat = 12
  · rw [escapeChar, if_neg h1, if_neg h2, if_neg h3, if_neg h4, if_neg h5, if_neg h6,
      if_pos h7]
    decide
  by_cases h8 : c.toNat < 0x20
  · rw [escapeChar, if_neg h1, if_neg h2, if_neg h3, if_neg h4, if_neg h5, if_neg h6,
      if_neg h7, if_pos h8]
    intro h
    rcases List.mem_cons.1 h with h | h
    · exact absurd h (by decide)
    rcases List.mem_cons.1 h with h | h
    · exact absurd h (by decide)
    exact newline_not_mem_hex4 c.toNat h
  by_cases h9 : c.toNat ≤ 0x7e
  · rw [escapeChar, if_neg h1, if_neg h2, if_neg h3, if_neg h4, if_neg h5, if_neg h6,
      if_neg h7, if_neg h8, if_pos h9]
    intro h
    rcases List.mem_singleton.1 h with h
    exact h3 h.symm
  by_cases h10 : c.toNat < 0x10000
  · rw [escapeChar, if_neg h1, if_neg h2, if_neg h3, if_neg h4, if_neg h5, if_neg h6,
      if_neg h7, if_neg h8, if_neg h9, if_pos h10]
    intro h
    rcases List.mem_cons.1 h with h | h
    · exact absurd h (by decide)
    rcases List.mem_cons.1 h with h | h
    · exact absurd h (by decide)
    exact newline_not_mem_hex4 c.toNat h
  · rw [escapeChar, if_neg h1, if_neg h2, if_neg h3, if_neg h4, if_neg h5, if_neg h6,
      if_neg h7, if_neg h8, if_neg h9, if_neg h10]
    intro h
    rcases List.mem_append.1 h with h | h
    · rcases List.mem_cons.1 h with h | h
      · exact absurd h (by decide)
      rcases List.mem_cons.1 h with h | h
      · exact absurd h (by decide)
      exact newline_not_mem_hex4 _ h
    · rcases List.mem_cons.1 h with h | h
      · exact absurd h (by decide)
      rcases List.mem_cons.1 h with h | h
      · exact absurd h (by decide)
      exact newline_not_mem_hex4 _ h

theorem newline_not_mem_escapeString (s : Str) : '\n' ∉ escapeString s := by
  induction s with
  | nil => exact List.not_mem_nil _
  | cons c t ih =>
    rw [escapeString]
    intro h
    rcases List.mem_append.1 h with h | h
    · exact newline_not_mem_escapeChar c h
    · exact ih h

mutual

theorem newline_not_mem_dumps : ∀ j : Json, '\n' ∉ Json.dumps j
  | .null => by rw [Json.dumps]; decide
  | .bool true => by rw [Json.dumps]; decide
  | .bool false => by rw [Json.dumps]; decide
  | .num n => by
      rw [Json.dumps]
      split_ifs
      · intro h
        rcases List.mem_cons.1 h with h | h
        · exact absurd h (by decide)
        · exact newline_not_mem_natDigits _ h
      · exact newline_not_mem_natDigits _
  | .str s => by
      rw [Json.dumps]
      intro h
      rcases List.mem_cons.1 h with h | h
      · exact absurd h (by decide)
      rcases List.mem_append.1 h with h | h
      · exact newline_not_mem_escapeString s h
      · exact absurd h (by decide)
  | .arr l => by
      rw [Json.dumps]
      intro h
      rcases List.mem_cons.1 h with h | h
      · exact absurd h (by decide)
      rcases List.mem_append.1 h with h | h
      · exact newline_not_mem_dumpsList l h
      · exact absurd h (by decide)
  | .obj m => by
      rw [Json.dumps]
      intro h
      rcases List.mem_cons.1 h with h | h
      · exact absurd h (by decide)
      rcases List.mem_append.1 h with h | h
      · exact newline_not_mem_dumpsMembers m h
      · exact absurd h (by decide)

theorem newline_not_mem_dumpsList : ∀ l : List Json, '\n' ∉ Json.dumpsList l
  | [] => by rw [Json.dumpsList]; exact List.not_mem_nil _
  | [x] => by rw [Json.dumpsList]; exact newline_not_mem_dumps x
  | x :: y :: ys => by
      rw [Json.dumpsList]
      intro h
      rcases List.mem_append.1 h with h | h
      · exact newline_not_mem_dumps x h
      rcases List.mem_cons.1 h with h | h
      · exact absurd h (by decide)
      rcases List.mem_cons.1 h with h | h
      · exact absurd h (by decide)
      · exact newline_not_mem_dumpsList (y :: ys) h

theorem newline_not_mem_dumpsMembers : ∀ m : List (Str × Json), '\n' ∉ Json.dumpsMembers m
  | [] => by rw [Json.dumpsMembers]; exact List.not_mem_nil _
  | [(k, v)] => by
      rw [Json.dumpsMembers]
      intro h
      rcases List.mem_append.1 h with h | h
      · rcases List.mem_cons.1 h with h | h
        · exact absurd h (by decide)
        rcases List.mem_append.1 h with h | h
        · exact newline_not_mem_escapeString k h
        · exact absurd h (by decide)
      · rcases List.mem_cons.1 h with h | h
        · exact absurd h (by decide)
        rcases List.mem_cons.1 h with h | h
        · exact absurd h (by decide)
        · exact newline_not_mem_dumps v h
  | (k, v) :: p :: ps => by
      rw [Json.dumpsMembers]
      intro h
      rcases List.mem_append.1 h with h | h
      · rcases List.mem_append.1 h with h | h
        · rcases List.mem_cons.1 h with h | h
          · exact absurd h (by decide)
          rcases List.mem_append.1 h with h | h
          · exact newline_not_mem_escapeString k h
          · exact absurd h (by decide)
        · rcases List.mem_cons.1 h with h | h
          · exact absurd h (by decide)
          rcases List.mem_cons.1 h with h | h
          · exact absurd h (by decide)
          · exact newline_not_mem_dumps v h
      · rcases List.mem_cons.1 h with h | h
        · exact absurd h (by decide)
        rcases List.mem_cons.1 h with h | h
        · exact absurd h (by decide)
        · exact newline_not_mem_dumpsMembers (p :: ps) h

end

/-! ### `src/publishing/core.py`: `FilePubSub` (Durable Log Sink)

State of one instance.  `disk` maps each topic to the bytes of
`<base_dir>/<topic>.log` visible in the file system; `file_handles` maps
each open handle to its userspace buffer of written-but-unflushed bytes;
`write_counts` holds the per-topic pending counters; `flush_task_running`
records whether the periodic `flush_periodically` task spawned in
`__init__` is alive.  `flush_interval` only determines when the timer
fires; the timer firing itself is the `flushAll` event below.  Disk
writes succeed (I/O errors are out of scope). -/

structure DateTime where
  year : Nat
  month : Nat
  day : Nat
  hour : Nat
  minute : Nat
  second : Nat
  deriving DecidableEq

/-- Two-digit zero-padded field of `strftime` (`%m %d %H %M %S`). -/
def pad2 (n : Nat) : Str := if n < 10 then '0' :: natDigits n else natDigits n

/-- `%Y` for the four-digit years `datetime.now()` yields. -/
def pad4 (n : Nat) : Str :=
  if n < 10 then '0' :: '0' :: '0' :: natDigits n
  else if n < 100 then '0' :: '0' :: natDigits n
  else if n < 1000 then '0' :: natDigits n
  else natDigits n

/-- `datetime.now().strftime("%Y-%m-%d %H:%M:%S")`. -/
def formatTimestamp (t : DateTime) : Str :=
  pad4 t.year ++ ('-' :: pad2 t.month) ++ ('-' :: pad2 t.day) ++
  (' ' :: pad2 t.hour) ++ (':' :: pad2 t.minute) ++ (':' :: pad2 t.second)

/-- The single line `publish` writes:
`f"{formatted_time} - {message_s}\n"`. -/
def logLine (now : DateTime) (message : Dict) : Str :=
  formatTimestamp now ++ (' ' :: '-' :: ' ' :: Json.dumps (.obj message)) ++ ['\n']

structure FilePubSub where
  disk : List (Str × Str)
  file_handles : List (Str × Str)
  write_counts : List (Str × Nat)
  flush_limit : Nat
  flush_task_running : Bool
  deriving DecidableEq

namespace FilePubSub

/-- `__init__(base_dir, flush_interval, flush_limit)` in a fresh output
directory: no files, no handles, no counters, the periodic task started. -/
def init (flush_limit : Nat) : FilePubSub := ⟨[], [], [], flush_limit, true⟩

/-- `_get_file_handle(topic)`: on first use, open `<topic>.log` in append
mode (creating the file if missing, keeping its content otherwise) and
start the topic's counter at 0. -/
def getFileHandle (s : FilePubSub) (topic : Str) : FilePubSub :=
  if (dictGet s.file_handles topic).isSome then s
  else
    ⟨dictSet s.disk topic ((dictGet s.disk topic).getD []),
     dictSet s.file_handles topic [],
     dictSet s.write_counts topic 0,
     s.flush_limit, s.flush_task_running⟩

/-- `flush(topic)`: if the topic has a handle, force its buffered bytes
into the OS-visible file and reset the topic's counter. -/
def flush (s : FilePubSub) (topic : Str) : FilePubSub :=
  match dictGet s.file_handles topic with
  | none => s
  | some buf =>
      ⟨dictSet s.disk topic ((dictGet s.disk topic).getD [] ++ buf),
       dictSet s.file_handles topic [],
       dictSet s.write_counts topic 0,
       s.flush_limit, s.flush_task_running⟩

/-- `publish(topic, message)`: buffer one timestamped serialized line,
bump the topic's counter, and flush the topic as soon as the counter
reaches `flush_limit`.  `now` is the wall clock read by
`datetime.now()`. -/
def publish (s : FilePubSub) (now : DateTime) (topic : Str) (message : Dict) : FilePubSub :=
  let s1 := s.getFileHandle topic
  let s2 : FilePubSub :=
    ⟨s1.disk,
     dictSet s1.file_handles topic
       ((dictGet s1.file_handles topic).getD [] ++ logLine now message),
     dictSet s1.write_counts topic ((dictGet s1.write_counts topic).getD 0 + 1),
     s1.flush_limit, s1.flush_task_running⟩
  if (dictGet s2.write_counts topic).getD 0 ≥ s2.flush_limit then s2.flush topic else s2

/-- `flush_all()` (the body the periodic task runs every `flush_interval`
seconds): flush every open handle and reset every counter. -/
def flush_all (s : FilePubSub) : FilePubSub :=
  ⟨s.file_handles.foldl (fun d p => dictSet d p.1 ((dictGet d p.1).getD [] ++ p.2)) s.disk,
   s.file_handles.map (fun p => (p.1, ([] : Str))),
   s.file_handles.foldl (fun w p => dictSet w p.1 0) s.write_counts,
   s.flush_limit, s.flush_task_running⟩

/-- The body of the `async def close()`: cancel the periodic task and
await its termination, close every handle (a CPython file close flushes
its buffer), and clear both bookkeeping dictionaries.  This body runs
only when the returned coroutine is awaited. -/
def closeBody (s : FilePubSub) : FilePubSub :=
  ⟨s.file_handles.foldl (fun d p => dictSet d p.1 ((dictGet d p.1).getD [] ++ p.2)) s.disk,
   [], [], s.flush_limit, false⟩

/-- Pending-counter of a topic (0 when the topic has no counter yet). -/
def countOf (s : FilePubSub) (topic : Str) : Nat := (dictGet s.write_counts topic).getD 0

/-- Unflushed bytes of a topic's handle. -/
def bufferOf (s : FilePubSub) (topic : Str) : Str := (dictGet s.file_handles topic).getD []

/-- Bytes of the topic's log file, buffered writes included: what the file
contains once the topic is flushed. -/
def fileContent (s : FilePubSub) (topic : Str) : Str :=
  (dictGet s.disk topic).getD [] ++ bufferOf s topic

end FilePubSub

/-- One event of the Durable Log Sink: a publish call, a manual per-topic
flush, or a firing of the periodic timer (`flush_all`). -/
inductive FOp where
  | publish (now : DateTime) (topic : Str) (message : Dict)
  | flush (topic : Str)
  | flushAll

def FOp.apply (s : FilePubSub) : FOp → FilePubSub
  | .publish now topic message => s.publish now topic message
  | .flush topic => s.flush topic
  | .flushAll => s.flush_all

def applyFOps (s : FilePubSub) (ops : List FOp) : FilePubSub := ops.foldl FOp.apply s

theorem dictSet_dictSet {κ : Type} [DecidableEq κ] {α : Type}
    (d : List (κ × α)) (k : κ) (v w : α) :
    dictSet (dictSet d k v) k w = dictSet d k w := by
  induction d with
  | nil => simp [dictSet]
  | cons p rest ih =>
    obtain ⟨k', v'⟩ := p
    by_cases h : k' = k
    · rw [dictSet_cons_eq h, dictSet_cons_eq rfl, dictSet_cons_eq h]
    · rw [dictSet_cons_ne h, dictSet_cons_ne h, dictSet_cons_ne h, ih]

namespace FilePubSub

theorem getFileHandle_of_isSome (s : FilePubSub) (t : Str)
    (h : (dictGet s.file_handles t).isSome) : s.getFileHandle t = s := by
  rw [getFileHandle, if_pos h]

/-- `publish` on a topic whose handle is already open: buffer the line and
bump the counter; flush if and only if the bumped counter reaches the
limit. -/
theorem publish_of_handle (s : FilePubSub) (now : DateTime) (t : Str) (msg : Dict)
    (b : Str) (hb : dictGet s.file_handles t = some b) :
    s.publish now t msg =
      if (dictGet s.write_counts t).getD 0 + 1 ≥ s.flush_limit then
        ⟨dictSet s.disk t ((dictGet s.disk t).getD [] ++ (b ++ logLine now msg)),
         dictSet s.file_handles t [],
         dictSet s.write_counts t 0,
         s.flush_limit, s.flush_task_running⟩
      else
        ⟨s.disk, dictSet s.file_handles t (b ++ logLine now msg),
         dictSet s.write_counts t ((dictGet s.write_counts t).getD 0 + 1),
         s.flush_limit, s.flush_task_running⟩ := by
  rw [publish, getFileHandle_of_isSome s t (by rw [hb]; rfl)]
  simp only [hb, Option.getD_some, dictGet_dictSet_self]
  split
  · rw [flush]
    simp only [dictGet_dictSet_self, dictSet_dictSet]
  · rfl

end FilePubSub

namespace FilePubSub

theorem getFileHandle_idem (s : FilePubSub) (t : Str) :
    (s.getFileHandle t).getFileHandle t = s.getFileHandle t := by
  by_cases h : (dictGet s.file_handles t).isSome
  · rw [getFileHandle_of_isSome s t h, getFileHandle_of_isSome s t h]
  · apply getFileHandle_of_isSome
    rw [getFileHandle, if_neg h]
    simp [dictGet_dictSet_self]

theorem getFileHandle_handle_some (s : FilePubSub) (t : Str) :
    ∃ b, dictGet (s.getFileHandle t).file_handles t = some b := by
  by_cases h : (dictGet s.file_handles t).isSome
  · rw [getFileHandle_of_isSome s t h]
    exact Option.isSome_iff_exists.1 h
  · rw [getFileHandle, if_neg h]
    exact ⟨[], dictGet_dictSet_self _ _ _⟩

theorem publish_getFileHandle (s : FilePubSub) (now : DateTime) (t : Str) (msg : Dict) :
    s.publish now t msg = (s.getFileHandle t).publish now t msg := by
  rw [publish, publish, getFileHandle_idem]

theorem getFileHandle_flush_limit (s : FilePubSub) (t : Str) :
    (s.getFileHandle t).flush_limit = s.flush_limit := by
  rw [getFileHandle]
  split <;> rfl

theorem getFileHandle_task (s : FilePubSub) (t : Str) :
    (s.getFileHandle t).flush_task_running = s.flush_task_running := by
  rw [getFileHandle]
  split <;> rfl

theorem publish_flush_limit (s : FilePubSub) (now : DateTime) (t : Str) (msg : Dict) :
    (s.publish now t msg).flush_limit = s.flush_limit := by
  rw [publish_getFileHandle]
  obtain ⟨b, hb⟩ := getFileHandle_handle_some s t
  rw [publish_of_handle _ _ _ _ _ hb]
  split <;> exact getFileHandle_flush_limit s t

theorem flush_flush_limit (s : FilePubSub) (t : Str) :
    (s.flush t).flush_limit = s.flush_limit := by
  rw [flush]
  cases hdg : dictGet s.file_handles t <;> rfl

/-- The pending counters never escape `[0, flush_limit)` once the limit is
positive: every stored counter is strictly below the limit. -/
def CountsBounded (s : FilePubSub) : Prop :=
  ∀ p ∈ s.write_counts, p.2 < s.flush_limit

theorem mem_foldl_dictSet_zero {l : List (Str × Str)} {w0 : List (Str × Nat)}
    {p : Str × Nat} (hp : p ∈ l.foldl (fun w q => dictSet w q.1 0) w0) :
    p ∈ w0 ∨ p.2 = 0 := by
  induction l generalizing w0 with
  | nil => left; exact hp
  | cons q rest ih =>
    rcases ih hp with h | h
    · rcases mem_dictSet _ _ _ _ h with h2 | h2
      · left; exact h2
      · right; rw [h2]
    · right; exact h

theorem countsBounded_getFileHandle (s : FilePubSub) (t : Str) (hN : 1 ≤ s.flush_limit)
    (h : CountsBounded s) : CountsBounded (s.getFileHandle t) := by
  intro p hp
  rw [getFileHandle_flush_limit]
  rw [getFileHandle] at hp
  split at hp
  · exact h p hp
  · rcases mem_dictSet _ _ _ _ hp with h2 | h2
    · exact h p h2
    · rw [h2]; omega

theorem countsBounded_publish (s : FilePubSub) (now : DateTime) (t : Str) (msg : Dict)
    (hN : 1 ≤ s.flush_limit) (h : CountsBounded s) :
    CountsBounded (s.publish now t msg) := by
  rw [publish_getFileHandle]
  have hNg : 1 ≤ (s.getFileHandle t).flush_limit := by rw [getFileHandle_flush_limit]; omega
  have hg := countsBounded_getFileHandle s t hN h
  obtain ⟨b, hb⟩ := getFileHandle_handle_some s t
  rw [publish_of_handle _ _ _ _ _ hb]
  split
  · intro p hp
    rcases mem_dictSet _ _ _ _ hp with h2 | h2
    · exact hg p h2
    · rw [h2]; exact hNg
  · next hcond =>
    intro p hp
    rcases mem_dictSet _ _ _ _ hp with h2 | h2
    · exact hg p h2
    · rw [h2]
      simp only at hcond ⊢
      omega

theorem countsBounded_flush (s : FilePubSub) (t : Str) (hN : 1 ≤ s.flush_limit)
    (h : CountsBounded s) : CountsBounded (s.flush t) := by
  rw [flush]
  cases hdg : dictGet s.file_handles t with
  | none => exact h
  | some buf =>
    intro p hp
    rcases mem_dictSet _ _ _ _ hp with h2 | h2
    · exact h p h2
    · rw [h2]; exact hN

theorem countsBounded_flush_all (s : FilePubSub) (hN : 1 ≤ s.flush_limit)
    (h : CountsBounded s) : CountsBounded s.flush_all := by
  intro p hp
  rcases mem_foldl_dictSet_zero hp with h2 | h2
  · exact h p h2
  · show p.2 < s.flush_limit
    omega

end FilePubSub

theorem FOp.apply_flush_limit (s : FilePubSub) (op : FOp) :
    (op.apply s).flush_limit = s.flush_limit := by
  cases op with
  | publish now t msg => exact FilePubSub.publish_flush_limit s now t msg
  | flush t => exact FilePubSub.flush_flush_limit s t
  | flushAll => rfl

theorem FOp.apply_countsBounded (s : FilePubSub) (op : FOp) (hN : 1 ≤ s.flush_limit)
    (h : s.CountsBounded) : (op.apply s).CountsBounded := by
  cases op with
  | publish now t msg => exact FilePubSub.countsBounded_publish s now t msg hN h
  | flush t => exact FilePubSub.countsBounded_flush s t hN h
  | flushAll => exact FilePubSub.countsBounded_flush_all s hN h

theorem applyFOps_invariant (N : Nat) (hN : 1 ≤ N) (ops : List FOp) :
    (applyFOps (FilePubSub.init N) ops).flush_limit = N ∧
      (applyFOps (FilePubSub.init N) ops).CountsBounded := by
  suffices h : ∀ s : FilePubSub, s.flush_limit = N → s.CountsBounded →
      (applyFOps s ops).flush_limit = N ∧ (applyFOps s ops).CountsBounded by
    exact h _ rfl (by intro p hp; exact absurd hp (List.not_mem_nil p))
  induction ops with
  | nil => exact fun s h1 h2 => ⟨h1, h2⟩
  | cons op rest ih =>
    intro s h1 h2
    exact ih (op.apply s) (by rw [FOp.apply_flush_limit, h1])
      (FOp.apply_countsBounded s op (by omega) h2)

/-- The pending counter of every topic, in every state reachable from a
fresh sink, is strictly below the flush limit (so in particular it never
exceeds it). -/
theorem countOf_applyFOps_lt (N : Nat) (hN : 1 ≤ N) (ops : List FOp) (t : Str) :
    (applyFOps (FilePubSub.init N) ops).countOf t < N := by
  obtain ⟨h1, h2⟩ := applyFOps_invariant N hN ops
  rw [FilePubSub.countOf]
  cases hdg : dictGet (applyFOps (FilePubSub.init N) ops).write_counts t with
  | none => simpa using hN
  | some c =>
    have := h2 _ (dictGet_mem hdg)
    simp only [Option.getD_some]
    omega

/-- `N` consecutive `publish` calls to one topic (each with its own wall
clock reading and message), with no intervening flush. -/
def publishSeq (s : FilePubSub) (t : Str) (ps : List (DateTime × Dict)) : FilePubSub :=
  ps.foldl (fun st p => st.publish p.1 t p.2) s

/-- The concatenation of the log lines of a batch of publishes. -/
def logLines : List (DateTime × Dict) → Str
  | [] => []
  | p :: rest => logLine p.1 p.2 ++ logLines rest

theorem publishSeq_fills : ∀ (ps : List (DateTime × Dict)) (s : FilePubSub) (t : Str)
    (b : Str), dictGet s.file_handles t = some b →
    (dictGet s.write_counts t).getD 0 + ps.length = s.flush_limit →
    ps ≠ [] →
    publishSeq s t ps =
      ⟨dictSet s.disk t ((dictGet s.disk t).getD [] ++ (b ++ logLines ps)),
       dictSet s.file_handles t [],
       dictSet s.write_counts t 0,
       s.flush_limit, s.flush_task_running⟩
  | [], _, _, _, _, _, hne => absurd rfl hne
  | [p], s, t, b, hb, hc, _ => by
      show (s.publish p.1 t p.2) = _
      rw [FilePubSub.publish_of_handle s p.1 t p.2 b hb]
      have hc1 : (dictGet s.write_counts t).getD 0 + 1 = s.flush_limit := by simpa using hc
      rw [if_pos (by omega)]
      simp [logLines]
  | p :: q :: rest, s, t, b, hb, hc, _ => by
      show publishSeq (s.publish p.1 t p.2) t (q :: rest) = _
      rw [FilePubSub.publish_of_handle s p.1 t p.2 b hb]
      have hlen : (dictGet s.write_counts t).getD 0 + (q :: rest).length + 1 =
          s.flush_limit := by
        have := hc
        simp at this ⊢
        omega
      rw [if_neg (by simp at hlen ⊢; omega)]
      rw [publishSeq_fills (q :: rest) _ t (b ++ logLine p.1 p.2)
        (dictGet_dictSet_self _ _ _)
        (by simp only [dictGet_dictSet_self, Option.getD_some]; simp at hlen ⊢; omega)
        (by simp)]
      simp only [dictSet_dictSet, dictGet_dictSet_self, Option.getD_some]
      simp [logLines, List.append_assoc]

theorem publishSeq_getFileHandle (s : FilePubSub) (t : Str)
    (ps : List (DateTime × Dict)) (hne : ps ≠ []) :
    publishSeq s t ps = publishSeq (s.getFileHandle t) t ps := by
  cases ps with
  | nil => exact absurd rfl hne
  | cons p rest =>
    show publishSeq (s.publish p.1 t p.2) t rest = publishSeq ((s.getFileHandle t).publish p.1 t p.2) t rest
    rw [FilePubSub.publish_getFileHandle]

/-- From any state where topic `t` has pending counter 0 and an empty (or
no) write buffer, exactly `flush_limit` consecutive publishes to `t` leave
the counter at 0 and the buffer empty, with all the published lines
appended to the topic's on-disk file: the count-based flush fired by
itself. -/
theorem publishSeq_flush_threshold (s : FilePubSub) (t : Str)
    (ps : List (DateTime × Dict)) (hN : 1 ≤ s.flush_limit)
    (hcount : s.countOf t = 0) (hbuf : s.bufferOf t = [])
    (hlen : ps.length = s.flush_limit) :
    (publishSeq s t ps).countOf t = 0 ∧ (publishSeq s t ps).bufferOf t = [] ∧
      (dictGet (publishSeq s t ps).disk t).getD [] =
        (dictGet s.disk t).getD [] ++ logLines ps := by
  have hne : ps ≠ [] := by
    intro h
    rw [h] at hlen
    simp at hlen
    omega
  rw [publishSeq_getFileHandle s t ps hne]
  obtain ⟨b, hb⟩ := FilePubSub.getFileHandle_handle_some s t
  have hbnil : b = [] := by
    by_cases h : (dictGet s.file_handles t).isSome
    · rw [FilePubSub.getFileHandle_of_isSome s t h] at hb
      rw [FilePubSub.bufferOf, hb] at hbuf
      simpa using hbuf
    · rw [FilePubSub.getFileHandle, if_neg h] at hb
      simp only [dictGet_dictSet_self, Option.some.injEq] at hb
      exact hb.symm
  subst hbnil
  have hcg : (dictGet (s.getFileHandle t).write_counts t).getD 0 = 0 := by
    by_cases h : (dictGet s.file_handles t).isSome
    · rw [FilePubSub.getFileHandle_of_isSome s t h]
      exact hcount
    · rw [FilePubSub.getFileHandle, if_neg h]
      simp [dictGet_dictSet_self]
  have hdisk : (dictGet (s.getFileHandle t).disk t).getD [] =
      (dictGet s.disk t).getD [] := by
    by_cases h : (dictGet s.file_handles t).isSome
    · rw [FilePubSub.getFileHandle_of_isSome s t h]
    · rw [FilePubSub.getFileHandle, if_neg h]
      simp [dictGet_dictSet_self]
  rw [publishSeq_fills ps (s.getFileHandle t) t [] hb
    (by rw [hcg, FilePubSub.getFileHandle_flush_limit]; omega) hne]
  refine ⟨?_, ?_, ?_⟩
  · show (dictGet (dictSet (s.getFileHandle t).write_counts t 0) t).getD 0 = 0
    simp [dictGet_dictSet_self]
  · show (dictGet (dictSet (s.getFileHandle t).file_handles t []) t).getD [] = []
    simp [dictGet_dictSet_self]
  · show (dictGet (dictSet (s.getFileHandle t).disk t _) t).getD [] = _
    simp only [dictGet_dictSet_self, Option.getD_some, List.nil_append]
    rw [hdisk]

/-! ### Lines of a log file -/

/-- Split text into its newline-terminated lines. -/
def linesOf : Str → List Str
  | [] => []
  | c :: rest =>
      if c = '\n' then [] :: linesOf rest
      else
        match linesOf rest with
        | [] => [[c]]
        | l :: ls => (c :: l) :: ls

/-- Content every write of the sink preserves: empty, or ending in a
newline (each logged line ends in one). -/
def NlTerminated (l : Str) : Prop := l = [] ∨ l.getLast? = some '\n'

theorem linesOf_single (b : Str) (hb : '\n' ∉ b) : linesOf (b ++ ['\n']) = [b] := by
  induction b with
  | nil => rfl
  | cons c t ih =>
    have hc : ¬ c = '\n' := fun h => hb (h ▸ List.mem_cons_self c t)
    rw [List.cons_append, linesOf, if_neg hc,
      ih fun h => hb (List.mem_cons_of_mem c h)]

theorem linesOf_ne_nil (a : Str) (ha : a.getLast? = some '\n') : linesOf a ≠ [] := by
  induction a with
  | nil => simp at ha
  | cons c t ih =>
    rw [linesOf]
    by_cases hc : c = '\n'
    · simp [hc]
    · rw [if_neg hc]
      cases t with
      | nil => simp at ha; exact absurd ha hc
      | cons d ts =>
        rw [List.getLast?_cons_cons] at ha
        cases hlt : linesOf (d :: ts) with
        | nil => exact absurd hlt (ih ha)
        | cons l ls => simp

theorem linesOf_append (a x : Str) (ha : NlTerminated a) :
    linesOf (a ++ x) = linesOf a ++ linesOf x := by
  induction a with
  | nil => simp [linesOf]
  | cons c t ih =>
    have ha2 : (c :: t).getLast? = some '\n' := by
      rcases ha with h | h
      · exact absurd h (by simp)
      · exact h
    by_cases hc : c = '\n'
    · subst hc
      cases t with
      | nil => simp [linesOf]
      | cons d ts =>
        rw [List.getLast?_cons_cons] at ha2
        rw [List.cons_append, linesOf, if_pos rfl, ih (Or.inr ha2),
          show linesOf ('\n' :: d :: ts) = [] :: linesOf (d :: ts) from by
            rw [linesOf, if_pos rfl]]
        simp
    · cases t with
      | nil => simp at ha2; exact absurd ha2 hc
      | cons d ts =>
        rw [List.getLast?_cons_cons] at ha2
        have hlt : linesOf (d :: ts) ≠ [] := linesOf_ne_nil _ ha2
        cases hl : linesOf (d :: ts) with
        | nil => exact absurd hl hlt
        | cons l ls =>
          rw [List.cons_append, linesOf, if_neg hc, ih (Or.inr ha2), hl,
            show linesOf (c :: d :: ts) = (c :: l) :: ls from by
              rw [linesOf, if_neg hc, hl]]
          simp

/-- Appending one newline-terminated, newline-free-bodied record adds
exactly one line. -/
theorem linesOf_append_line (a b : Str) (ha : NlTerminated a) (hb : '\n' ∉ b) :
    linesOf (a ++ (b ++ ['\n'])) = linesOf a ++ [b] := by
  rw [linesOf_append a _ ha, linesOf_single b hb]

theorem newline_not_mem_pad2 (n : Nat) : '\n' ∉ pad2 n := by
  rw [pad2]
  split
  · intro h
    rcases List.mem_cons.1 h with h | h
    · exact absurd h (by decide)
    · exact newline_not_mem_natDigits n h
  · exact newline_not_mem_natDigits n

theorem newline_not_mem_pad4 (n : Nat) : '\n' ∉ pad4 n := by
  rw [pad4]
  split_ifs <;> intro h
  · rcases List.mem_cons.1 h with h | h
    · exact absurd h (by decide)
    rcases List.mem_cons.1 h with h | h
    · exact absurd h (by decide)
    rcases List.mem_cons.1 h with h | h
    · exact absurd h (by decide)
    · exact newline_not_mem_natDigits n h
  · rcases List.mem_cons.1 h with h | h
    · exact absurd h (by decide)
    rcases List.mem_cons.1 h with h | h
    · exact absurd h (by decide)
    · exact newline_not_mem_natDigits n h
  · rcases List.mem_cons.1 h with h | h
    · exact absurd h (by decide)
    · exact newline_not_mem_natDigits n h
  · exact newline_not_mem_natDigits n h

theorem newline_not_mem_formatTimestamp (t : DateTime) : '\n' ∉ formatTimestamp t := by
  rw [formatTimestamp]
  intro h
  rcases List.mem_append.1 h with h | h
  rcases List.mem_append.1 h with h | h
  rcases List.mem_append.1 h with h | h
  rcases List.mem_append.1 h with h | h
  rcases List.mem_append.1 h with h | h
  · exact newline_not_mem_pad4 _ h
  · rcases List.mem_cons.1 h with h | h
    · exact absurd h (by decide)
    · exact newline_not_mem_pad2 _ h
  · rcases List.mem_cons.1 h with h | h
    · exact absurd h (by decide)
    · exact newline_not_mem_pad2 _ h
  · rcases List.mem_cons.1 h with h | h
    · exact absurd h (by decide)
    · exact newline_not_mem_pad2 _ h
  · rcases List.mem_cons.1 h with h | h
    · exact absurd h (by decide)
    · exact newline_not_mem_pad2 _ h
  · rcases List.mem_cons.1 h with h | h
    · exact absurd h (by decide)
    · exact newline_not_mem_pad2 _ h

/-- The body of a log line (everything before its trailing newline) is
newline-free: one `publish` can only ever add one line. -/
theorem newline_not_mem_logBody (now : DateTime) (msg : Dict) :
    '\n' ∉ formatTimestamp now ++ (' ' :: '-' :: ' ' :: Json.dumps (.obj msg)) := by
  intro h
  rcases List.mem_append.1 h with h | h
  · exact newline_not_mem_formatTimestamp now h
  rcases List.mem_cons.1 h with h | h
  · exact absurd h (by decide)
  rcases List.mem_cons.1 h with h | h
  · exact absurd h (by decide)
  rcases List.mem_cons.1 h with h | h
  · exact absurd h (by decide)
  · exact newline_not_mem_dumps _ h

namespace FilePubSub

theorem getFileHandle_fileContent (s : FilePubSub) (t : Str) :
    fileContent (s.getFileHandle t) t = fileContent s t := by
  by_cases h : (dictGet s.file_handles t).isSome
  · rw [getFileHandle_of_isSome s t h]
  · rw [fileContent, fileContent, bufferOf, bufferOf, getFileHandle, if_neg h]
    simp only [dictGet_dictSet_self, Option.getD_some]
    have : dictGet s.file_handles t = none := by
      cases hd : dictGet s.file_handles t
      · rfl
      · rw [hd] at h; simp at h
    rw [this]
    simp

/-- One `publish` appends exactly its one log line to the topic's file
content (buffered bytes included). -/
theorem publish_fileContent (s : FilePubSub) (now : DateTime) (t : Str) (msg : Dict) :
    fileContent (s.publish now t msg) t = fileContent s t ++ logLine now msg := by
  rw [publish_getFileHandle, ← getFileHandle_fileContent s t]
  obtain ⟨b, hb⟩ := getFileHandle_handle_some s t
  rw [publish_of_handle _ _ _ _ _ hb]
  split
  · rw [fileContent, fileContent, bufferOf, bufferOf]
    simp only [dictGet_dictSet_self, Option.getD_some, hb]
    simp [List.append_assoc]
  · rw [fileContent, fileContent, bufferOf, bufferOf]
    simp only [dictGet_dictSet_self, Option.getD_some, hb]
    simp [List.append_assoc]

end FilePubSub

/-! ### `src/publishing/core.py`: `InMemoryWithLogPublisher` (Fan-Out) -/

structure InMemoryWithLogPublisher where
  in_memory : InMemoryKeyValueStorage
  file_backed : FilePubSub
  deriving DecidableEq

namespace InMemoryWithLogPublisher

/-- `publish(topic, message)`: `self.file_backed.publish(...)` first, then
`self.in_memory.publish(...)`; an exception from the table-store sink
propagates to the caller after the log sink's effect is already applied. -/
def publish (s : InMemoryWithLogPublisher) (now : DateTime) (topic : Str)
    (message : Dict) : InMemoryWithLogPublisher × Option PyErr :=
  let fb := s.file_backed.publish now topic message
  let km := KeyValueStorePubSub.publish s.in_memory topic message
  (⟨km.1, fb⟩, km.2)

/-- `close()` as written: `self.in_memory.close()` is `pass`, and
`self.file_backed.close()` only CREATES the coroutine of the `async def
close` — it is never awaited, so the body (`FilePubSub.closeBody`) never
runs and the state is unchanged (CPython emits
`RuntimeWarning: coroutine 'FilePubSub.close' was never awaited`). -/
def close (s : InMemoryWithLogPublisher) : InMemoryWithLogPublisher :=
  s

end InMemoryWithLogPublisher

/-! ### Shape of `exchange_info` payloads and parser totality -/

/-- A message whose PRESENT fields have the container shapes the parser
iterates over: `symbols`, when present, is a list of dicts, and each
symbol's `filters`, when present, is a list of dicts.  Dropping keys from
a well-shaped message keeps it well-shaped — these are exactly the
"missing expected key" degradations the spec discusses. -/
def exchangeShaped (msg : Dict) : Bool :=
  match (dictGet msg "symbols".toList).getD (.arr []) with
  | .arr l =>
      l.all fun si =>
        match si with
        | .obj d =>
            (match (dictGet d "filters".toList).getD (.arr []) with
             | .arr fl => fl.all fun fi => match fi with | .obj _ => true | _ => false
             | _ => false)
        | _ => false
  | _ => false

theorem except_ok_bind {ε α β : Type} (a : α) (f : α → Except ε β) :
    (Except.ok a >>= f : Except ε β) = f a := rfl

theorem applyFilterInfo_ok (acc : FilterFields) (d : Dict) :
    ∃ acc', applyFilterInfo acc (.obj d) = .ok acc' := by
  have hred : applyFilterInfo acc (.obj d) =
      if (dictGet d "filterType".toList).getD Json.null = Json.str "PRICE_FILTER".toList then
        .ok ⟨(dictGet d "tickSize".toList).getD .null, (dictGet d "minPrice".toList).getD .null,
             (dictGet d "maxPrice".toList).getD .null, acc.min_qty, acc.max_qty, acc.step_size⟩
      else if (dictGet d "filterType".toList).getD Json.null = Json.str "LOT_SIZE".toList then
        .ok ⟨acc.tick_size, acc.min_price, acc.max_price,
             (dictGet d "minQty".toList).getD .null, (dictGet d "maxQty".toList).getD .null,
             (dictGet d "stepSize".toList).getD .null⟩
      else .ok acc := rfl
  rw [hred]
  split_ifs <;> exact ⟨_, rfl⟩

theorem foldlM_applyFilterInfo_ok (fl : List Json) (acc : FilterFields)
    (h : ∀ fi ∈ fl, ∃ d, fi = Json.obj d) :
    ∃ acc', fl.foldlM applyFilterInfo acc = .ok acc' := by
  induction fl generalizing acc with
  | nil => exact ⟨acc, rfl⟩
  | cons fi rest ih =>
    obtain ⟨d, rfl⟩ := h fi (List.mem_cons_self fi rest)
    obtain ⟨acc1, h1⟩ := applyFilterInfo_ok acc d
    rw [List.foldlM_cons, h1, except_ok_bind]
    exact ih acc1 fun x hx => h x (List.mem_cons_of_mem _ hx)

theorem parseSymbolInfo_ok (acc : List (Json × Json)) (d : Dict)
    (h : (match (dictGet d "filters".toList).getD (.arr []) with
          | .arr fl => fl.all fun fi => match fi with | .obj _ => true | _ => false
          | _ => false) = true) :
    ∃ acc', parseSymbolInfo acc (.obj d) = .ok acc' := by
  simp only [parseSymbolInfo, show Json.asDict (.obj d) = Except.ok d from rfl,
    except_ok_bind]
  cases hfl : (dictGet d "filters".toList).getD (.arr []) with
  | arr fl =>
    rw [hfl] at h
    have hobj : ∀ fi ∈ fl, ∃ d', fi = Json.obj d' := by
      intro fi hfi
      have hfib := List.all_eq_true.1 h fi hfi
      cases fi with
      | obj o => exact ⟨o, rfl⟩
      | null => simp at hfib
      | bool b => simp at hfib
      | num n => simp at hfib
      | str st => simp at hfib
      | arr a => simp at hfib
    obtain ⟨acc1, h1⟩ := foldlM_applyFilterInfo_ok fl initFilterFields hobj
    simp only [show Json.asList (.arr fl) = Except.ok fl from rfl, except_ok_bind, h1]
    exact ⟨_, rfl⟩
  | null => rw [hfl] at h; simp at h
  | bool b => rw [hfl] at h; simp at h
  | num n => rw [hfl] at h; simp at h
  | str st => rw [hfl] at h; simp at h
  | obj o => rw [hfl] at h; simp at h

theorem foldlM_parseSymbolInfo_ok (l : List Json)
    (h : ∀ si ∈ l, ∃ d, si = Json.obj d ∧
      (match (dictGet d "filters".toList).getD (.arr []) with
       | .arr fl => fl.all fun fi => match fi with | .obj _ => true | _ => false
       | _ => false) = true) :
    ∀ acc, ∃ md, l.foldlM parseSymbolInfo acc = .ok md := by
  induction l with
  | nil => exact fun acc => ⟨acc, rfl⟩
  | cons si rest ih =>
    intro acc
    obtain ⟨d, rfl, hd⟩ := h si (List.mem_cons_self si rest)
    obtain ⟨acc1, h1⟩ := parseSymbolInfo_ok acc d hd
    rw [List.foldlM_cons, h1, except_ok_bind]
    exact ih (fun x hx => h x (List.mem_cons_of_mem _ hx)) acc1

theorem parse_symbols_info_ok (msg : Dict) (h : exchangeShaped msg = true) :
    ∃ md, parse_symbols_info msg = .ok md := by
  rw [exchangeShaped] at h
  cases hsym : (dictGet msg "symbols".toList).getD (.arr []) with
  | arr l =>
    rw [hsym] at h
    simp only [parse_symbols_info, hsym,
      show Json.asList (.arr l) = Except.ok l from rfl, except_ok_bind]
    apply foldlM_parseSymbolInfo_ok
    intro si hsi
    have hfib := List.all_eq_true.1 h si hsi
    cases si with
    | obj o => exact ⟨o, rfl, hfib⟩
    | null => simp at hfib
    | bool b => simp at hfib
    | num n => simp at hfib
    | str st => simp at hfib
    | arr a => simp at hfib
  | null => rw [hsym] at h; simp at h
  | bool b => rw [hsym] at h; simp at h
  | num n => rw [hsym] at h; simp at h
  | str st => rw [hsym] at h; simp at h
  | obj o => rw [hsym] at h; simp at h

/-- The spec's parser example: one `"BTCUSDT"` instrument with a
`PRICE_FILTER` and a `LOT_SIZE` filter. -/
def btcSymbolInfo : Json := .obj [
  ("symbol".toList, .str "BTCUSDT".toList),
  ("status".toList, .str "TRADING".toList),
  ("baseAsset".toList, .str "BTC".toList),
  ("quoteAsset".toList, .str "USDT".toList),
  ("filters".toList, .arr [
    .obj [("filterType".toList, .str "PRICE_FILTER".toList),
          ("minPrice".toList, .str "10000.00000000".toList),
          ("maxPrice".toList, .str "100000.00000000".toList),
          ("tickSize".toList, .str "0.01000000".toList)],
    .obj [("filterType".toList, .str "LOT_SIZE".toList),
          ("minQty".toList, .str "0.00100000".toList),
          ("maxQty".toList, .str "100.00000000".toList),
          ("stepSize".toList, .str "0.00100000".toList)]])]

/-- An `exchange_info` message carrying that instrument (with the
`rateLimits` list the code reads unconditionally). -/
def btcMessage : Dict := [
  ("symbols".toList, .arr [btcSymbolInfo]),
  ("rateLimits".toList, .arr [])]

/-- The `symbols`-table record the example must produce. -/
def expectedBtcRecord : Json := .obj [
  ("symbol".toList, .str "BTCUSDT".toList),
  ("baseAsset".toList, .str "BTC".toList),
  ("quoteAsset".toList, .str "USDT".toList),
  ("tickSize".toList, .str "0.01000000".toList),
  ("minPrice".toList, .str "10000.00000000".toList),
  ("maxPrice".toList, .str "100000.00000000".toList),
  ("lotSize".toList, .obj [
    ("minQty".toList, .str "0.00100000".toList),
    ("maxQty".toList, .str "100.00000000".toList),
    ("stepSize".toList, .str "0.00100000".toList)]),
  ("status".toList, .str "TRADING".toList)]

/-- A fan-out publisher whose log sink holds one open handle with one
still-buffered line and a live periodic task. -/
def c2State : InMemoryWithLogPublisher :=
  ⟨InMemoryKeyValueStorage.empty,
   ⟨[("exchange_info".toList, [])],
    [("exchange_info".toList, "2026-01-01 00:00:00 - {}\n".toList)],
    [("exchange_info".toList, 1)],
    10000, true⟩⟩

/-- The `exchange_info` branch of the Table-Store Sink's `publish`. -/
theorem publish_exchange_eq (store : InMemoryKeyValueStorage) (msg : Dict) :
    KeyValueStorePubSub.publish store "exchange_info".toList msg =
      (match parse_symbols_info msg with
       | .error e => (store, some e)
       | .ok symbols_info =>
         let store := symbols_info.foldl
           (fun st p => st.write "symbols".toList p.1 p.2) store
         match dictGet msg "rateLimits".toList with
         | none => (store, some .keyError)
         | some rl =>
             (store.write "exchange_info".toList (.str "rateLimits".toList) rl, none)) := by
  rw [KeyValueStorePubSub.publish, if_pos rfl]

theorem read_all_applyOps_none : ∀ (ops : List StOp) (s : InMemoryKeyValueStorage) (t : Str),
    (∀ op ∈ ops, op.table ≠ t) → s.read_all t = none →
    (applyOps s ops).read_all t = none
  | [], _, _, _, hs => hs
  | op :: rest, s, t, h, hs => by
      show (applyOps (op.apply s) rest).read_all t = none
      exact read_all_applyOps_none rest _ t (fun x hx => h x (List.mem_cons_of_mem _ hx))
        (by rw [read_all_apply_other s op t (h op (List.mem_cons_self _ _))]; exact hs)

/-! ### The claims -/

/-- C4: publishing the spec's example `exchange_info` message (one
`"BTCUSDT"` instrument with the given `PRICE_FILTER` and `LOT_SIZE`
filters) through the Table-Store Sink returns normally and stores, in
table `symbols` under key `"BTCUSDT"`, a record whose eight fields and
status are populated exactly as given in the input. -/
theorem C4_parser_example :
    (KeyValueStorePubSub.publish InMemoryKeyValueStorage.empty
        "exchange_info".toList btcMessage).2 = none ∧
    (KeyValueStorePubSub.publish InMemoryKeyValueStorage.empty
        "exchange_info".toList btcMessage).1.read
        "symbols".toList (.str "BTCUSDT".toList) = some expectedBtcRecord := by
  constructor
  · decide
  · decide

/-- C7: the Fan-Out Publisher's `publish` forwards the topic and message
unmodified, first to the Durable Log Sink and then to the Table-Store
Sink: its effect on the combined state is exactly the log-sink publish
composed with the table-sink publish (whose possible exception is the one
reported to the caller). -/
theorem C7_fanout_order (s : InMemoryWithLogPublisher) (now : DateTime) (topic : Str)
    (message : Dict) :
    (s.publish now topic message).1.file_backed =
        s.file_backed.publish now topic message ∧
    (s.publish now topic message).1.in_memory =
        (KeyValueStorePubSub.publish s.in_memory topic message).1 ∧
    (s.publish now topic message).2 =
        (KeyValueStorePubSub.publish s.in_memory topic message).2 :=
  ⟨rfl, rfl, rfl⟩

/-- C9: publishing to the Table-Store Sink with any topic outside
`exchange_info`, `system_status`, `account_info` is a silent no-op: the
store is returned unchanged and no exception is reported. -/
theorem C9_unknown_topic_noop (store : InMemoryKeyValueStorage) (topic : Str)
    (message : Dict) (h1 : topic ≠ "exchange_info".toList)
    (h2 : topic ≠ "system_status".toList) (h3 : topic ≠ "account_info".toList) :
    KeyValueStorePubSub.publish store topic message = (store, none) := by
  rw [KeyValueStorePubSub.publish, if_neg h1,
    if_neg (fun hor => hor.elim (fun h => h2 h) fun h => h3 h)]

theorem C9_unknown_topic_noop_witness :
    KeyValueStorePubSub.publish InMemoryKeyValueStorage.empty "other_topic".toList
      [("a".toList, Json.num 1)] = (InMemoryKeyValueStorage.empty, none) :=
  C9_unknown_topic_noop InMemoryKeyValueStorage.empty "other_topic".toList
    [("a".toList, Json.num 1)] (by decide) (by decide) (by decide)

/-- C2: on a fan-out publisher whose log sink holds an open handle with a
buffered record and a live periodic task, `close()` leaves the state
completely unchanged — the flush task keeps running, the handle stays
open, the bookkeeping stays non-empty and the buffered record never
reaches the file — because the async `FilePubSub.close` coroutine is
created but never awaited.  Its body (`closeBody`), had it been awaited,
would have cancelled the task, flushed the record to disk and cleared the
bookkeeping, as the claim describes. -/
theorem C2_close_unawaited :
    InMemoryWithLogPublisher.close c2State = c2State ∧
    (InMemoryWithLogPublisher.close c2State).file_backed.flush_task_running = true ∧
    (InMemoryWithLogPublisher.close c2State).file_backed.file_handles ≠ [] ∧
    (InMemoryWithLogPublisher.close c2State).file_backed.bufferOf
        "exchange_info".toList ≠ [] ∧
    (dictGet (InMemoryWithLogPublisher.close c2State).file_backed.disk
        "exchange_info".toList).getD [] = [] ∧
    (FilePubSub.closeBody c2State.file_backed).flush_task_running = false ∧
    (FilePubSub.closeBody c2State.file_backed).file_handles = [] ∧
    (FilePubSub.closeBody c2State.file_backed).write_counts = [] ∧
    (dictGet (FilePubSub.closeBody c2State.file_backed).disk
        "exchange_info".toList).getD [] = "2026-01-01 00:00:00 - {}\n".toList := by
  refine ⟨rfl, rfl, by decide, by decide, by decide, rfl, rfl, rfl, by decide⟩

/-- C5: two successive writes of the same `(table, key, value)` leave
`read_all(table)` with exactly one entry for that key, equal to the
written value; and writing an existing key overwrites it wholesale (the
second value fully replaces the first, no merge). -/
theorem C5_upsert_idempotence (st : InMemoryKeyValueStorage) (hwf : st.WF) (t : Str)
    (k v v1 v2 : Json) :
    (∃ d, ((st.write t k v).write t k v).read_all t = some d ∧
      countKey d k = 1 ∧ dictGet d k = some v) ∧
    ((st.write t k v1).write t k v2).read t k = some v2 := by
  constructor
  · refine ⟨dictSet ((dictGet st.storage t).getD []) k v, ?_, ?_, ?_⟩
    · show dictGet (dictSet (dictSet st.storage t _) t
        (dictSet ((dictGet (dictSet st.storage t _) t).getD []) k v)) t = _
      simp only [dictGet_dictSet_self, Option.getD_some, dictSet_dictSet]
    · exact countKey_dictSet_self _ _ _ (hwf.table_nodup t)
    · exact dictGet_dictSet_self _ _ _
  · show dictGet ((dictGet (dictSet (dictSet st.storage t _) t
      (dictSet ((dictGet (dictSet st.storage t _) t).getD []) k v2)) t).getD []) k = _
    simp only [dictGet_dictSet_self, Option.getD_some, dictSet_dictSet]

theorem C5_upsert_idempotence_witness :
    (∃ d, ((InMemoryKeyValueStorage.empty.write "t".toList (.str "k".toList)
        (.num 1)).write "t".toList (.str "k".toList) (.num 1)).read_all
        "t".toList = some d ∧
      countKey d (.str "k".toList) = 1 ∧ dictGet d (.str "k".toList) = some (.num 1)) ∧
    ((InMemoryKeyValueStorage.empty.write "t".toList (.str "k".toList)
        (.num 2)).write "t".toList (.str "k".toList) (.num 3)).read
        "t".toList (.str "k".toList) = some (.num 3) :=
  C5_upsert_idempotence InMemoryKeyValueStorage.empty (by decide) "t".toList
    (.str "k".toList) (.num 1) (.num 2) (.num 3)

/-- C6: `read_all` of a table never addressed by any operation since the
fresh store is absent (`none`); after a write followed by `clear_table`,
`read_all` of that table is an existing-but-empty mapping (`some []`),
not absent. -/
theorem C6_absent_vs_empty :
    (∀ (t : Str) (ops : List StOp), (∀ op ∈ ops, op.table ≠ t) →
      (applyOps InMemoryKeyValueStorage.empty ops).read_all t = none) ∧
    (∀ (st : InMemoryKeyValueStorage) (t : Str) (k v : Json),
      ((st.write t k v).clear_table t).read_all t = some []) := by
  constructor
  · exact fun t ops h => read_all_applyOps_none ops _ t h rfl
  · intro st t k v
    have hsome : dictGet (st.write t k v).storage t =
        some (dictSet ((dictGet st.storage t).getD []) k v) := dictGet_dictSet_self _ _ _
    rw [InMemoryKeyValueStorage.clear_table]
    simp only [hsome]
    exact dictGet_dictSet_self _ _ _

theorem C6_absent_vs_empty_witness :
    (applyOps InMemoryKeyValueStorage.empty
      [StOp.write "u".toList (.str "k".toList) (.num 1)]).read_all "t".toList = none ∧
    ((InMemoryKeyValueStorage.empty.write "t".toList (.str "k".toList)
      (.str "v".toList)).clear_table "t".toList).read_all "t".toList = some [] :=
  ⟨C6_absent_vs_empty.1 "t".toList [StOp.write "u".toList (.str "k".toList) (.num 1)]
    (by decide),
   C6_absent_vs_empty.2 InMemoryKeyValueStorage.empty "t".toList (.str "k".toList)
    (.str "v".toList)⟩

/-- C10: table-store mutations are local to their argument pair — `write`
and `delete` leave every other `(table, key)` unchanged, `clear_table`
leaves every other table unchanged, and `delete`/`clear_table` on an
absent key or table return the store unchanged (no error; the operations
are total). -/
theorem C10_frame_effects :
    (∀ (st : InMemoryKeyValueStorage) (t t' : Str) (k k' v : Json), t' ≠ t ∨ k' ≠ k →
      (st.write t k v).read t' k' = st.read t' k') ∧
    (∀ (st : InMemoryKeyValueStorage) (t t' : Str) (k k' : Json), t' ≠ t ∨ k' ≠ k →
      (st.delete t k).read t' k' = st.read t' k') ∧
    (∀ (st : InMemoryKeyValueStorage) (t t' : Str), t' ≠ t →
      (st.clear_table t).read_all t' = st.read_all t') ∧
    (∀ (st : InMemoryKeyValueStorage) (t : Str) (k : Json), st.read t k = none →
      st.delete t k = st) ∧
    (∀ (st : InMemoryKeyValueStorage) (t : Str), st.read_all t = none →
      st.clear_table t = st) := by
  refine ⟨?_, ?_, ?_, ?_, ?_⟩
  · intro st t t' k k' v h
    by_cases ht : t' = t
    · subst ht
      have hk : k' ≠ k := h.resolve_left fun hh => hh rfl
      show dictGet ((dictGet (dictSet st.storage t' _) t').getD []) k' = _
      rw [dictGet_dictSet_self, Option.getD_some, dictGet_dictSet_ne _ _ _ _ hk]
      rfl
    · show dictGet ((dictGet (dictSet st.storage t _) t').getD []) k' = _
      rw [dictGet_dictSet_ne _ _ _ _ ht]
      rfl
  · intro st t t' k k' h
    rw [InMemoryKeyValueStorage.delete]
    cases hdg : dictGet st.storage t with
    | none => rfl
    | some tbl =>
      show (if (dictGet tbl k).isSome = true then
          (⟨dictSet st.storage t (dictErase tbl k)⟩ : InMemoryKeyValueStorage)
        else st).read t' k' = st.read t' k'
      by_cases hk : (dictGet tbl k).isSome
      · rw [if_pos hk]
        by_cases ht : t' = t
        · subst ht
          have hk' : k' ≠ k := h.resolve_left fun hh => hh rfl
          show dictGet ((dictGet (dictSet st.storage t' _) t').getD []) k' = _
          rw [dictGet_dictSet_self, Option.getD_some, dictGet_dictErase_ne _ _ _ hk']
          show dictGet tbl k' = st.read t' k'
          rw [InMemoryKeyValueStorage.read, hdg]
          rfl
        · show dictGet ((dictGet (dictSet st.storage t _) t').getD []) k' = _
          rw [dictGet_dictSet_ne _ _ _ _ ht]
          rfl
      · rw [if_neg hk]
  · intro st t t' h
    rw [InMemoryKeyValueStorage.clear_table]
    cases hdg : dictGet st.storage t with
    | none => rfl
    | some tbl =>
      show dictGet (dictSet st.storage t []) t' = _
      rw [dictGet_dictSet_ne _ _ _ _ h]
      rfl
  · intro st t k h
    rw [InMemoryKeyValueStorage.delete]
    cases hdg : dictGet st.storage t with
    | none => rfl
    | some tbl =>
      rw [InMemoryKeyValueStorage.read, hdg] at h
      show (if (dictGet tbl k).isSome = true then
          (⟨dictSet st.storage t (dictErase tbl k)⟩ : InMemoryKeyValueStorage)
        else st) = st
      rw [if_neg (by simp at h; simp [h])]
  · intro st t h
    rw [InMemoryKeyValueStorage.clear_table]
    rw [InMemoryKeyValueStorage.read_all] at h
    rw [h]

theorem C10_frame_effects_witness :
    ((InMemoryKeyValueStorage.empty.write "t".toList (.str "k".toList) (.num 1)).read
      "u".toList (.str "k".toList) =
        InMemoryKeyValueStorage.empty.read "u".toList (.str "k".toList)) ∧
    ((InMemoryKeyValueStorage.empty.delete "t".toList (.str "k".toList)).read
      "t".toList (.str "j".toList) =
        InMemoryKeyValueStorage.empty.read "t".toList (.str "j".toList)) ∧
    ((InMemoryKeyValueStorage.empty.clear_table "t".toList).read_all "u".toList =
        InMemoryKeyValueStorage.empty.read_all "u".toList) ∧
    (InMemoryKeyValueStorage.empty.delete "t".toList (.str "k".toList) =
        InMemoryKeyValueStorage.empty) ∧
    (InMemoryKeyValueStorage.empty.clear_table "t".toList =
        InMemoryKeyValueStorage.empty) :=
  ⟨C10_frame_effects.1 InMemoryKeyValueStorage.empty "t".toList "u".toList
      (.str "k".toList) (.str "k".toList) (.num 1) (Or.inl (by decide)),
   C10_frame_effects.2.1 InMemoryKeyValueStorage.empty "t".toList "t".toList
      (.str "k".toList) (.str "j".toList) (Or.inr (by decide)),
   C10_frame_effects.2.2.1 InMemoryKeyValueStorage.empty "t".toList "u".toList
      (by decide),
   C10_frame_effects.2.2.2.1 InMemoryKeyValueStorage.empty "t".toList
      (.str "k".toList) (by decide),
   C10_frame_effects.2.2.2.2 InMemoryKeyValueStorage.empty "t".toList (by decide)⟩

/-- C1 counterexample: the claim "malformed input never raises" is false
as stated — publishing the empty message (which lacks the `rateLimits`
key) to `exchange_info` raises a `KeyError` to the caller instead of
returning normally. -/
theorem C1_counterexample :
    (KeyValueStorePubSub.publish InMemoryKeyValueStorage.empty
      "exchange_info".toList []).2 = some PyErr.keyError := by decide

/-- C1 (amended): for a message published to `exchange_info`, a missing
`symbols` list yields zero symbol records and missing `filters` lists
yield null sub-fields, and the call returns normally — PROVIDED the
`rateLimits` key is present; a message without `rateLimits` raises a
`KeyError` to the caller. -/
theorem C1_amended_parse_degradation :
    (∀ (store : InMemoryKeyValueStorage) (msg : Dict), exchangeShaped msg = true →
      (dictGet msg "rateLimits".toList).isSome →
      (KeyValueStorePubSub.publish store "exchange_info".toList msg).2 = none) ∧
    (∀ (store : InMemoryKeyValueStorage) (msg : Dict), exchangeShaped msg = true →
      dictGet msg "rateLimits".toList = none →
      (KeyValueStorePubSub.publish store "exchange_info".toList msg).2 =
        some PyErr.keyError) ∧
    (∀ (store : InMemoryKeyValueStorage) (msg : Dict) (rl : Json),
      dictGet msg "symbols".toList = none → dictGet msg "rateLimits".toList = some rl →
      KeyValueStorePubSub.publish store "exchange_info".toList msg =
        (store.write "exchange_info".toList (.str "rateLimits".toList) rl, none)) ∧
    (∀ si : Dict, dictGet si "filters".toList = none →
      parseSymbolInfo [] (.obj si) = .ok
        [((dictGet si "symbol".toList).getD .null, .obj [
          ("symbol".toList, (dictGet si "symbol".toList).getD .null),
          ("baseAsset".toList, (dictGet si "baseAsset".toList).getD .null),
          ("quoteAsset".toList, (dictGet si "quoteAsset".toList).getD .null),
          ("tickSize".toList, .null), ("minPrice".toList, .null),
          ("maxPrice".toList, .null),
          ("lotSize".toList, .obj [("minQty".toList, .null), ("maxQty".toList, .null),
            ("stepSize".toList, .null)]),
          ("status".toList, (dictGet si "status".toList).getD .null)])]) := by
  refine ⟨?_, ?_, ?_, ?_⟩
  · intro store msg hshape hrl
    obtain ⟨md, hmd⟩ := parse_symbols_info_ok msg hshape
    obtain ⟨rl, hrlv⟩ := Option.isSome_iff_exists.1 hrl
    rw [publish_exchange_eq]
    simp only [hmd, hrlv]
  · intro store msg hshape hrl
    obtain ⟨md, hmd⟩ := parse_symbols_info_ok msg hshape
    rw [publish_exchange_eq]
    simp only [hmd, hrl]
  · intro store msg rl hsym hrl
    have hparse : parse_symbols_info msg = .ok [] := by
      simp only [parse_symbols_info, hsym, Option.getD_none]
      rfl
    rw [publish_exchange_eq]
    simp only [hparse, hrl]
    rfl
  · intro si hfil
    have hfl : (dictGet si "filters".toList).getD (.arr []) = .arr [] := by
      rw [hfil]
      rfl
    simp only [parseSymbolInfo, show Json.asDict (.obj si) = Except.ok si from rfl,
      except_ok_bind, hfl, show Json.asList (.arr []) = Except.ok ([] : List Json) from rfl]
    rfl

theorem C1_amended_parse_degradation_witness :
    (KeyValueStorePubSub.publish InMemoryKeyValueStorage.empty "exchange_info".toList
      btcMessage).2 = none ∧
    (KeyValueStorePubSub.publish InMemoryKeyValueStorage.empty "exchange_info".toList
      [("symbols".toList, .arr [])]).2 = some PyErr.keyError ∧
    KeyValueStorePubSub.publish InMemoryKeyValueStorage.empty "exchange_info".toList
      [("rateLimits".toList, .arr [])] =
      (InMemoryKeyValueStorage.empty.write "exchange_info".toList
        (.str "rateLimits".toList) (.arr []), none) ∧
    parseSymbolInfo [] (.obj [("symbol".toList, .str "X".toList)]) = .ok
      [(.str "X".toList, .obj [
        ("symbol".toList, .str "X".toList),
        ("baseAsset".toList, .null),
        ("quoteAsset".toList, .null),
        ("tickSize".toList, .null), ("minPrice".toList, .null),
        ("maxPrice".toList, .null),
        ("lotSize".toList, .obj [("minQty".toList, .null), ("maxQty".toList, .null),
          ("stepSize".toList, .null)]),
        ("status".toList, .null)])] :=
  ⟨C1_amended_parse_degradation.1 InMemoryKeyValueStorage.empty btcMessage
      (by decide) (by decide),
   C1_amended_parse_degradation.2.1 InMemoryKeyValueStorage.empty
      [("symbols".toList, .arr [])] (by decide) (by decide),
   C1_amended_parse_degradation.2.2.1 InMemoryKeyValueStorage.empty
      [("rateLimits".toList, .arr [])] (.arr []) (by decide) (by decide),
   C1_amended_parse_degradation.2.2.2 [("symbol".toList, .str "X".toList)] (by decide)⟩

/-- C3: with `flush_limit = N ≥ 1`: (a) in every state reachable from a
fresh sink by any sequence of publishes, manual flushes and timer
flushes, the pending counter of every topic never exceeds `N`; (b) from
any state in which a topic's counter is 0 and its buffer empty, exactly
`N` consecutive publishes to that topic leave the counter at 0 with all
`N` lines flushed to the topic's file — the count-based flush fires with
no manual flush call. -/
theorem C3_flush_threshold (N : Nat) (hN : 1 ≤ N) :
    (∀ (ops : List FOp) (t : Str),
      (applyFOps (FilePubSub.init N) ops).countOf t ≤ N) ∧
    (∀ (s : FilePubSub) (t : Str) (ps : List (DateTime × Dict)),
      s.flush_limit = N → s.countOf t = 0 → s.bufferOf t = [] → ps.length = N →
      (publishSeq s t ps).countOf t = 0 ∧ (publishSeq s t ps).bufferOf t = [] ∧
        (dictGet (publishSeq s t ps).disk t).getD [] =
          (dictGet s.disk t).getD [] ++ logLines ps) := by
  constructor
  · exact fun ops t => le_of_lt (countOf_applyFOps_lt N hN ops t)
  · intro s t ps hfl hc hb hlen
    exact publishSeq_flush_threshold s t ps (by rw [hfl]; exact hN) hc hb
      (by rw [hfl]; exact hlen)

theorem C3_flush_threshold_witness :
    (applyFOps (FilePubSub.init 2)
      [FOp.publish ⟨2026, 1, 1, 0, 0, 0⟩ "t".toList []]).countOf "t".toList ≤ 2 ∧
    ((publishSeq (FilePubSub.init 2) "t".toList
        [(⟨2026, 1, 1, 0, 0, 0⟩, []), (⟨2026, 1, 1, 0, 0, 1⟩, [])]).countOf
        "t".toList = 0 ∧
      (publishSeq (FilePubSub.init 2) "t".toList
        [(⟨2026, 1, 1, 0, 0, 0⟩, []), (⟨2026, 1, 1, 0, 0, 1⟩, [])]).bufferOf
        "t".toList = [] ∧
      (dictGet (publishSeq (FilePubSub.init 2) "t".toList
        [(⟨2026, 1, 1, 0, 0, 0⟩, []), (⟨2026, 1, 1, 0, 0, 1⟩, [])]).disk
        "t".toList).getD [] =
        (dictGet (FilePubSub.init 2).disk "t".toList).getD [] ++
          logLines [(⟨2026, 1, 1, 0, 0, 0⟩, []), (⟨2026, 1, 1, 0, 0, 1⟩, [])]) :=
  ⟨(C3_flush_threshold 2 (by decide)).1
      [FOp.publish ⟨2026, 1, 1, 0, 0, 0⟩ "t".toList []] "t".toList,
   (C3_flush_threshold 2 (by decide)).2 (FilePubSub.init 2) "t".toList
      [(⟨2026, 1, 1, 0, 0, 0⟩, []), (⟨2026, 1, 1, 0, 0, 1⟩, [])]
      rfl (by decide) (by decide) (by decide)⟩

/-- C8: one `publish` call appends to the topic's file (buffered bytes
included) exactly one new line, of the form
`<YYYY-MM-DD HH:MM:SS> - <json.dumps(message)>` followed by a newline,
and the serialized payload deserializes back to a document equal to the
original message. -/
theorem C8_log_line_roundtrip (s : FilePubSub) (now : DateTime) (topic : Str)
    (message : Dict) (hterm : NlTerminated (FilePubSub.fileContent s topic)) :
    FilePubSub.fileContent (s.publish now topic message) topic =
      FilePubSub.fileContent s topic ++
        ((formatTimestamp now ++ (' ' :: '-' :: ' ' :: Json.dumps (.obj message))) ++
          ['\n']) ∧
    linesOf (FilePubSub.fileContent (s.publish now topic message) topic) =
      linesOf (FilePubSub.fileContent s topic) ++
        [formatTimestamp now ++ (' ' :: '-' :: ' ' :: Json.dumps (.obj message))] ∧
    Json.loads (Json.dumps (.obj message)) = some (.obj message) := by
  have h1 := FilePubSub.publish_fileContent s now topic message
  have hassoc : logLine now message =
      (formatTimestamp now ++ (' ' :: '-' :: ' ' :: Json.dumps (.obj message))) ++
        ['\n'] := rfl
  refine ⟨?_, ?_, loads_dumps _⟩
  · rw [h1, hassoc]
  · rw [h1, hassoc]
    exact linesOf_append_line _ _ hterm (newline_not_mem_logBody now message)

theorem C8_log_line_roundtrip_witness :
    FilePubSub.fileContent ((FilePubSub.init 10).publish ⟨2026, 1, 1, 0, 0, 0⟩
        "t".toList []) "t".toList =
      FilePubSub.fileContent (FilePubSub.init 10) "t".toList ++
        ((formatTimestamp ⟨2026, 1, 1, 0, 0, 0⟩ ++
          (' ' :: '-' :: ' ' :: Json.dumps (.obj []))) ++ ['\n']) ∧
    linesOf (FilePubSub.fileContent ((FilePubSub.init 10).publish ⟨2026, 1, 1, 0, 0, 0⟩
        "t".toList []) "t".toList) =
      linesOf (FilePubSub.fileContent (FilePubSub.init 10) "t".toList) ++
        [formatTimestamp ⟨2026, 1, 1, 0, 0, 0⟩ ++
          (' ' :: '-' :: ' ' :: Json.dumps (.obj []))] ∧
    Json.loads (Json.dumps (.obj [])) = some (.obj []) :=
  C8_log_line_roundtrip (FilePubSub.init 10) ⟨2026, 1, 1, 0, 0, 0⟩ "t".toList []
    (Or.inl rfl)
